import Mathlib

/-!
Verification of the release-notification tool (`slackbot.py` and
`tool/slackbot.py`).  Python strings are modelled as lists of characters;
the Python string primitives used by the program (`in`, `split`, `replace`,
`lstrip`) are embedded below, and the program's functions are translated
on top of them.  External effects (subprocess, HTTP GET/POST, file writes)
are modelled by an environment of oracles plus an event trace.
-/

namespace Slackbot

/-- Python strings are modelled as lists of characters. -/
abbrev Str := List Char

/-- Apostrophe character, used to build string constants. -/
def apos : Char := Char.ofNat 39

/-- Opening curly brace character. -/
def lbrace : Char := Char.ofNat 123

/-- Closing curly brace character. -/
def rbrace : Char := Char.ofNat 125

/-- Python substring containment `pat in s`: some position of `s`
(including the end) starts with `pat`. -/
def hasOcc (pat : Str) : Str → Bool
  | [] => pat.isEmpty
  | c :: cs => pat.isPrefixOf (c :: cs) || hasOcc pat cs

/-- Prefix of `s` strictly before the first occurrence of `pat`
(all of `s` when `pat` does not occur). -/
def upTo (pat : Str) : Str → Str
  | [] => []
  | c :: cs => if pat.isPrefixOf (c :: cs) then [] else c :: upTo pat cs

/-- Suffix of `s` after the first occurrence of `pat`
(empty when `pat` does not occur). -/
def afterFirst (pat : Str) : Str → Str
  | [] => []
  | c :: cs => if pat.isPrefixOf (c :: cs) then List.drop (pat.length - 1) cs else afterFirst pat cs

/-- Fuelled worker for Python `str.split(sep)` with a non-empty separator:
non-overlapping, left-to-right, keeping empty parts. -/
def pySplitF (sep : Str) : Nat → Str → List Str
  | _, [] => [[]]
  | 0, s => [s]
  | fuel + 1, c :: cs =>
    if sep.isPrefixOf (c :: cs) then
      [] :: pySplitF sep fuel (List.drop (sep.length - 1) cs)
    else
      match pySplitF sep fuel cs with
      | [] => [[c]]
      | g :: gs => (c :: g) :: gs

/-- Python `s.split(sep)` for a non-empty separator. -/
def pySplit (sep s : Str) : List Str := pySplitF sep s.length s

/-- Direct single-character splitter, provably equal to `pySplit [c]`. -/
def splitCh (sep : Char) : Str → List Str
  | [] => [[]]
  | c :: cs =>
    if c = sep then [] :: splitCh sep cs
    else
      match splitCh sep cs with
      | [] => [[c]]
      | g :: gs => (c :: g) :: gs

/-- Joining with a single-character separator: inverse of `splitCh`. -/
def joinSep (sep : Char) : List Str → Str
  | [] => []
  | [p] => p
  | p :: ps => p ++ sep :: joinSep sep ps

/-- Fuelled worker for Python `s.replace(old, new)` with non-empty `old`:
non-overlapping, left-to-right. -/
def pyReplaceF (old new : Str) : Nat → Str → Str
  | _, [] => []
  | 0, s => s
  | fuel + 1, c :: cs =>
    if old.isPrefixOf (c :: cs) then
      new ++ pyReplaceF old new fuel (List.drop (old.length - 1) cs)
    else
      c :: pyReplaceF old new fuel cs

/-- Python `s.replace(old, new)` for a non-empty `old`. -/
def pyReplace (old new s : Str) : Str := pyReplaceF old new s.length s

/-- Suffix of `s` after the last occurrence of the character `sep`
(all of `s` when `sep` does not occur). -/
def afterLastCh (sep : Char) (s : Str) : Str :=
  ((s.reverse).takeWhile (fun c => !(c == sep))).reverse

/-- Index of the first occurrence of a character, as in Python `str.find`. -/
def findIdxCh (ch : Char) : Str → Option Nat
  | [] => none
  | a :: as => if a = ch then some 0 else (findIdxCh ch as).map (fun i => i + 1)

/-- ASCII letter test (`str.isalpha` restricted to ASCII, as CPython checks
`url[0].isascii() and url[0].isalpha()`). -/
def isAsciiAlpha (c : Char) : Bool :=
  (65 ≤ c.toNat && c.toNat ≤ 90) || (97 ≤ c.toNat && c.toNat ≤ 122)

/-- Characters allowed in a URL scheme (CPython `scheme_chars`). -/
def isSchemeChar (c : Char) : Bool :=
  isAsciiAlpha c || (48 ≤ c.toNat && c.toNat ≤ 57) || c == '+' || c == '-' || c == '.'

/-- ASCII lowercasing of a single character. -/
def toLowerAscii (c : Char) : Char :=
  if 65 ≤ c.toNat && c.toNat ≤ 90 then Char.ofNat (c.toNat + 32) else c

/-- WHATWG normalisation performed by CPython `urlsplit`: strip leading C0
controls and spaces, then remove every tab, newline and carriage return. -/
def wsNorm (url : Str) : Str :=
  (url.dropWhile (fun c => c.toNat ≤ 32)).filter
    (fun c => !(c.toNat == 9 || c.toNat == 10 || c.toNat == 13))

/-- Result of `urllib.parse.urlparse`. -/
structure UrlParts where
  scheme : Str
  netloc : Str
  path : Str
  params : Str
  query : Str
  fragment : Str

/-- Scheme extraction of CPython `urlsplit`: the part before the first `:`
becomes the (lowercased) scheme when it is non-empty, starts with an ASCII
letter and consists of scheme characters. -/
def splitScheme (u : Str) : Str × Str :=
  match findIdxCh ':' u with
  | some i =>
    if 0 < i ∧ (∀ c ∈ List.take i u, isSchemeChar c) ∧ isAsciiAlpha (u.headD '0') then
      ((List.take i u).map toLowerAscii, List.drop (i + 1) u)
    else ([], u)
  | none => ([], u)

/-- Netloc extraction of CPython `urlsplit`: after a leading `//`, up to the
first `/`, `?` or `#`. -/
def splitNetloc (u : Str) : Str × Str :=
  if ("//".data).isPrefixOf u then
    let r := u.drop 2
    (r.takeWhile (fun c => !(c == '/' || c == '?' || c == '#')),
     r.dropWhile (fun c => !(c == '/' || c == '?' || c == '#')))
  else ([], u)

/-- Fragment split of CPython `urlsplit` (`url.split('#', 1)` when `#` occurs). -/
def splitFrag (u : Str) : Str × Str :=
  if u.any (fun c => c == '#') then
    (u.takeWhile (fun c => !(c == '#')), (u.dropWhile (fun c => !(c == '#'))).drop 1)
  else (u, [])

/-- Query split of CPython `urlsplit` (`url.split('?', 1)` when `?` occurs). -/
def splitQuery (u : Str) : Str × Str :=
  if u.any (fun c => c == '?') then
    (u.takeWhile (fun c => !(c == '?')), (u.dropWhile (fun c => !(c == '?'))).drop 1)
  else (u, [])

/-- Params split of CPython `urlparse`: a `;` inside the last `/`-segment
separates the params from the path. -/
def splitParams (p : Str) : Str × Str :=
  let seg := afterLastCh '/' p
  if seg.any (fun c => c == ';') then
    (List.take (p.length - seg.length) p ++ seg.takeWhile (fun c => !(c == ';')),
     (seg.dropWhile (fun c => !(c == ';'))).drop 1)
  else (p, [])

/-- Embedding of `urllib.parse.urlparse`, including the `ValueError` CPython
raises for a netloc with unbalanced square brackets. -/
def pyUrlparse (url : Str) : Except Str UrlParts :=
  let u1 := wsNorm url
  let sr := splitScheme u1
  let nr := splitNetloc sr.2
  if (nr.1.any (fun c => c == '[') && !nr.1.any (fun c => c == ']')) ||
     (nr.1.any (fun c => c == ']') && !nr.1.any (fun c => c == '[')) then
    Except.error ("Invalid IPv6 URL".data)
  else
    let fr := splitFrag nr.2
    let qr := splitQuery fr.1
    let pr := splitParams qr.1
    Except.ok ⟨sr.1, nr.1, pr.1, pr.2, qr.2, fr.2⟩

/-- String constant `.git`. -/
def dotGit : Str := ".git".data

/-- Group 2 of `re.match(r'git@(.*):(.*)', url)`: requires the literal prefix
`git@`; with greedy matching and `.` not crossing newlines, group 2 is the
part of the first line after its last colon. -/
def sshGroup2 (url : Str) : Option Str :=
  if ("git@".data).isPrefixOf url then
    let s := (url.drop 4).takeWhile (fun c => !(c == '\n'))
    if s.any (fun c => c == ':') then some (afterLastCh ':' s) else none
  else none

/-- Embedding of `extract_org_repo` (identical in both source variants):
HTTP/HTTPS URLs use the parsed path with leading slashes stripped; other
URLs must match the `git@...:...` pattern; every occurrence of `.git` is
removed from the result; otherwise a `ValueError` is raised. -/
def extract_org_repo (url : Str) : Except Str Str :=
  match pyUrlparse url with
  | Except.error m => Except.error m
  | Except.ok p =>
    if p.scheme = "http".data ∨ p.scheme = "https".data then
      Except.ok (pyReplace dotGit [] (p.path.dropWhile (fun c => c == '/')))
    else
      match sshGroup2 url with
      | some g => Except.ok (pyReplace dotGit [] g)
      | none => Except.error ("Invalid git repository URL format".data)

/-- GitHub API prefix used by both fetchers. -/
def apiRepos : Str := "https://api.github.com/repos/".data

/-- Release-by-tag API URL built by `get_release_info_by_tag`. -/
def releaseApiUrl (orgRepo tag : Str) : Str :=
  apiRepos ++ orgRepo ++ "/releases/tags/".data ++ tag

/-- Commit API URL for a given org/repo pair. -/
def commitApiUrl (orgRepo gitHash : Str) : Str :=
  apiRepos ++ orgRepo ++ "/commits/".data ++ gitHash

/-- Org/repo derivation used by `slackbot.py`'s `get_commit_info` and
`dump_release_info`: `repo_url.split(':')[1].replace('.git', '')`;
`none` models the `IndexError` when the URL has no colon. -/
def rootColonOrg (url : Str) : Option Str :=
  ((pySplit [':'] url).get? 1).map (fun p => pyReplace dotGit [] p)

/-- Full commit API URL targeted by `get_commit_info`, per variant
(`tool = true` for `tool/slackbot.py`, `false` for `slackbot.py`). -/
def commitUrlOf (tool : Bool) (repoUrl gitHash : Str) : Option Str :=
  match tool with
  | true => (extract_org_repo repoUrl).toOption.map (fun o => commitApiUrl o gitHash)
  | false => (rootColonOrg repoUrl).map (fun o => commitApiUrl o gitHash)

mutual

/-- JSON values, with objects as ordered field lists (Python dicts preserve
insertion order). -/
inductive JVal where
  | jstr : Str → JVal
  | jnum : Int → JVal
  | jbool : Bool → JVal
  | jnull : JVal
  | jarr : JItems → JVal
  | jobj : JFields → JVal

/-- Elements of a JSON array. -/
inductive JItems where
  | inil : JItems
  | icons : JVal → JItems → JItems

/-- Ordered fields of a JSON object. -/
inductive JFields where
  | fnil : JFields
  | fcons : Str → JVal → JFields → JFields

end

/-- Lowercase hexadecimal digit. -/
def hexDigit (n : Nat) : Char :=
  if n < 10 then Char.ofNat (48 + n) else Char.ofNat (87 + n)

/-- A `\uXXXX` escape as produced by `json.dumps`. -/
def uEsc (n : Nat) : Str :=
  '\\' :: 'u' :: hexDigit (n / 4096 % 16) :: hexDigit (n / 256 % 16) ::
    hexDigit (n / 16 % 16) :: [hexDigit (n % 16)]

/-- Escaping of one character by `json.dumps` with the default
`ensure_ascii=True` (non-BMP characters become surrogate pairs). -/
def escChar (c : Char) : Str :=
  if c = '"' then ['\\', '"']
  else if c = '\\' then ['\\', '\\']
  else if c.toNat = 8 then ['\\', 'b']
  else if c.toNat = 9 then ['\\', 't']
  else if c.toNat = 10 then ['\\', 'n']
  else if c.toNat = 12 then ['\\', 'f']
  else if c.toNat = 13 then ['\\', 'r']
  else if c.toNat < 32 ∨ 126 < c.toNat then
    if c.toNat ≤ 65535 then uEsc c.toNat
    else uEsc (55296 + (c.toNat - 65536) / 1024) ++ uEsc (56320 + (c.toNat - 65536) % 1024)
  else [c]

/-- JSON string literal as produced by `json.dumps`. -/
def jsonQuote (s : Str) : Str := '"' :: (s.map escChar).flatten ++ ['"']

/-- Body of the Slack POST: `json.dumps({'text': message})`. -/
def jsonTextPayload (msg : Str) : Str :=
  lbrace :: "\"text\": ".data ++ jsonQuote msg ++ [rbrace]

/-- Decimal representation of a natural number. -/
def natToStr (n : Nat) : Str := Nat.toDigits 10 n

/-- Decimal representation of an integer. -/
def intToStr : Int → Str
  | Int.ofNat n => natToStr n
  | Int.negSucc n => '-' :: natToStr (n + 1)

/-- Indentation of `n` spaces. -/
def spaces : Nat → Str
  | 0 => []
  | n + 1 => ' ' :: spaces n

mutual

/-- Serialization of a JSON value exactly as `json.dump(v, file, indent=4)`
writes it, at indentation level `ind` (item separator `,\n`, key separator
`: `, four extra spaces per level). -/
def serVal (ind : Nat) : JVal → Str
  | JVal.jstr s => jsonQuote s
  | JVal.jnum n => intToStr n
  | JVal.jbool true => "true".data
  | JVal.jbool false => "false".data
  | JVal.jnull => "null".data
  | JVal.jarr JItems.inil => "[]".data
  | JVal.jarr (JItems.icons x xs) =>
    '[' :: '\n' :: serItems (ind + 4) (JItems.icons x xs) ++ '\n' :: (spaces ind ++ "]".data)
  | JVal.jobj JFields.fnil => [lbrace, rbrace]
  | JVal.jobj (JFields.fcons k v fs) =>
    lbrace :: '\n' :: serFields (ind + 4) (JFields.fcons k v fs) ++ '\n' :: (spaces ind ++ [rbrace])

/-- Serialization of the items of a non-empty JSON array, each indented and
separated by `,\n`. -/
def serItems (ind : Nat) : JItems → Str
  | JItems.inil => []
  | JItems.icons x ys =>
    spaces ind ++ serVal ind x ++
      (match ys with | JItems.inil => ([] : Str) | _ => [',', '\n']) ++ serItems ind ys

/-- Serialization of the fields of a non-empty JSON object, each indented,
with `: ` between key and value and `,\n` between fields. -/
def serFields (ind : Nat) : JFields → Str
  | JFields.fnil => []
  | JFields.fcons k v fs =>
    spaces ind ++ jsonQuote k ++ ':' :: ' ' :: serVal ind v ++
      (match fs with | JFields.fnil => ([] : Str) | _ => [',', '\n']) ++ serFields ind fs

end

/-- Lookup of a key among JSON object fields (first match). -/
def jlookup (k : Str) : JFields → Option JVal
  | JFields.fnil => none
  | JFields.fcons k2 v fs => if k2 = k then some v else jlookup k fs

/-- Assoc lookup `v[k]` on a JSON value: `KeyError`/`TypeError` become the
error case. -/
def jget (v : JVal) (k : Str) : Except Str JVal :=
  match v with
  | JVal.jobj fs =>
    match jlookup k fs with
    | some w => Except.ok w
    | none => Except.error ("KeyError".data)
  | _ => Except.error ("TypeError".data)

/-- Coercion of a JSON value to a Python string (fails for non-strings,
modelling `AttributeError`/`TypeError` on `.split` etc.). -/
def jstrOf (v : JVal) : Except Str Str :=
  match v with
  | JVal.jstr s => Except.ok s
  | _ => Except.error ("TypeError".data)

/-- Python falsiness of a JSON value (`if not release_info:`). -/
def jFalsy : JVal → Bool
  | JVal.jstr s => s.isEmpty
  | JVal.jnum n => n == 0
  | JVal.jbool b => !b
  | JVal.jnull => true
  | JVal.jarr JItems.inil => true
  | JVal.jarr _ => false
  | JVal.jobj JFields.fnil => true
  | JVal.jobj _ => false

/-- String constant `What's Changed`, the changelog filter marker. -/
def wcStr : Str := "What".data ++ apos :: "s Changed".data

/-- Fixed header template of `build_message`, up to and including the
opening code fence. -/
def msgHeader (projectName releasedBy gitHash commitAuthor : Str) : Str :=
  "*Release Notification:*\n*Project:* ".data ++ projectName ++
  "\n*Released by:* ".data ++ releasedBy ++
  "\n*Commit:* ".data ++ gitHash ++
  "\n*Author:* ".data ++ commitAuthor ++
  '\n' :: '*' :: wcStr ++ ":*\n```\n".data

/-- Changelog body of `build_message`: one line per change, skipping every
change that contains the substring `What's Changed`. -/
def msgBody : List Str → Str
  | [] => []
  | ch :: rest => (if hasOcc wcStr ch then [] else ch ++ ['\n']) ++ msgBody rest

/-- Embedding of `build_message` (identical in both source variants). -/
def build_message (projectName releasedBy gitHash commitAuthor : Str)
    (changelog : List Str) : Str :=
  msgHeader projectName releasedBy gitHash commitAuthor ++ msgBody changelog ++ "```".data

/-- String constant `refs/tags/`, the tag-reference marker. -/
def refsTags : Str := "refs/tags/".data

/-- String constant `^` followed by an open and a close curly brace: the
tag dereference suffix stripped (everywhere) by `get_tag_for_commit`. -/
def caretBraces : Str := '^' :: lbrace :: [rbrace]

/-- Loop body of `get_tag_for_commit` over the listing lines: the first line
containing both the commit hash and `refs/tags/` yields
`line.split('refs/tags/')[1].replace('^' + open-close braces, '')`. -/
def tagLoop (commitHash : Str) : List Str → Option Str
  | [] => none
  | line :: rest =>
    if hasOcc commitHash line && hasOcc refsTags line then
      match (pySplit refsTags line).get? 1 with
      | some part => some (pyReplace caretBraces [] part)
      | none => tagLoop commitHash rest
    else tagLoop commitHash rest

/-- Embedding of `get_tag_for_commit`, as a function of the (stripped)
`git ls-remote` output. -/
def get_tag_for_commit (lsRemoteOutput commitHash : Str) : Option Str :=
  tagLoop commitHash (pySplit ['\n'] lsRemoteOutput)

/-- Oracles for the external world: the stripped output of
`git ls-remote <url>` (or a subprocess failure message), the JSON answer of
an authenticated GET by full URL (or a transport failure message), and the
outcome of a webhook POST by URL. -/
structure Env where
  lsRemote : Str → Except Str Str
  httpGet : Str → Except Str JVal
  post : Str → Except Str Unit

/-- Observable external actions, in program order. -/
inductive Event where
  | shell : Str → Event
  | getRelease : Str → Event
  | getCommit : Str → Event
  | post : Str → Str → Event
  | writeFile : Str → Str → Event
deriving DecidableEq

/-- Python exceptions distinguished by the top-level handlers. -/
inductive PyErr where
  | networkErr : Str → PyErr
  | valueErr : Str → PyErr
  | runtimeErr : Str → PyErr
  | lookupErr : Str → PyErr
deriving DecidableEq

/-- Shell command built by `get_tag_for_commit`. -/
def lsRemoteCmd (url : Str) : Str := "git ls-remote ".data ++ url

/-- Python truthiness of an optional string (`if tag:`). -/
def optTruthy : Option Str → Bool
  | some t => !t.isEmpty
  | none => false

/-- Embedding of `get_release_info_by_tag`: one authenticated GET against
the release-by-tag endpoint. -/
def get_release_info_by_tag (env : Env) (orgRepo tag : Str) :
    Event × Except PyErr JVal :=
  let u := releaseApiUrl orgRepo tag
  (Event.getRelease u,
    match env.httpGet u with
    | Except.error m => Except.error (PyErr.networkErr m)
    | Except.ok v => Except.ok v)

/-- Embedding of `get_commit_info`, per variant: `tool/slackbot.py` derives
org/repo with `extract_org_repo`, `slackbot.py` with
`repo_url.split(':')[1].replace('.git', '')` (an `IndexError` when the URL
has no colon). -/
def get_commit_info (tool : Bool) (env : Env) (repoUrl gitHash : Str) :
    List Event × Except PyErr JVal :=
  match tool with
  | true =>
    match extract_org_repo repoUrl with
    | Except.error m => ([], Except.error (PyErr.valueErr m))
    | Except.ok orgRepo =>
      let u := commitApiUrl orgRepo gitHash
      ([Event.getCommit u],
        match env.httpGet u with
        | Except.error m => Except.error (PyErr.networkErr m)
        | Except.ok v => Except.ok v)
  | false =>
    match rootColonOrg repoUrl with
    | none => ([], Except.error (PyErr.lookupErr ("IndexError".data)))
    | some orgRepo =>
      let u := commitApiUrl orgRepo gitHash
      ([Event.getCommit u],
        match env.httpGet u with
        | Except.error m => Except.error (PyErr.networkErr m)
        | Except.ok v => Except.ok v)

/-- Extraction of `commit_info['commit']['message']` and then
`commit_info['commit']['author']['name']`, in source order. -/
def commitMsgAuthor (v : JVal) : Except PyErr (Str × Str) :=
  match jget v ("commit".data) with
  | Except.error m => Except.error (PyErr.lookupErr m)
  | Except.ok c =>
    match jget c ("message".data) with
    | Except.error m => Except.error (PyErr.lookupErr m)
    | Except.ok mv =>
      match jstrOf mv with
      | Except.error m => Except.error (PyErr.lookupErr m)
      | Except.ok msg =>
        match jget c ("author".data) with
        | Except.error m => Except.error (PyErr.lookupErr m)
        | Except.ok av =>
          match jget av ("name".data) with
          | Except.error m => Except.error (PyErr.lookupErr m)
          | Except.ok nv =>
            match jstrOf nv with
            | Except.error m => Except.error (PyErr.lookupErr m)
            | Except.ok nm => Except.ok (msg, nm)

/-- Extraction of `release_info['body'].split('\n')` and then
`release_info['author']['login']`, in source order. -/
def releaseBodyAuthor (v : JVal) : Except PyErr (List Str × Str) :=
  match jget v ("body".data) with
  | Except.error m => Except.error (PyErr.lookupErr m)
  | Except.ok bv =>
    match jstrOf bv with
    | Except.error m => Except.error (PyErr.lookupErr m)
    | Except.ok body =>
      match jget v ("author".data) with
      | Except.error m => Except.error (PyErr.lookupErr m)
      | Except.ok av =>
        match jget av ("login".data) with
        | Except.error m => Except.error (PyErr.lookupErr m)
        | Except.ok lv =>
          match jstrOf lv with
          | Except.error m => Except.error (PyErr.lookupErr m)
          | Except.ok login => Except.ok (pySplit ['\n'] body, login)

/-- Fallback branch of `notify_release` (`if not changelog:`): fetch the
commit and use its message as the single changelog line and its author
name as the author. -/
def commitGather (tool : Bool) (env : Env) (repoUrl gitHash : Str) :
    List Event × Except PyErr (List Str × Str) :=
  let r := get_commit_info tool env repoUrl gitHash
  match r.2 with
  | Except.error e => (r.1, Except.error e)
  | Except.ok v =>
    match commitMsgAuthor v with
    | Except.error e => (r.1, Except.error e)
    | Except.ok p => (r.1, Except.ok ([p.1], p.2))

/-- Changelog/author selection of `notify_release`: the release record is
used when the tag is truthy, and the commit fallback runs exactly when the
changelog list is still empty afterwards. -/
def gatherChangelog (tool : Bool) (env : Env) (orgRepo repoUrl gitHash : Str)
    (tag : Option Str) : List Event × Except PyErr (List Str × Str) :=
  if optTruthy tag then
    let r := get_release_info_by_tag env orgRepo (tag.getD [])
    match r.2 with
    | Except.error e => ([r.1], Except.error e)
    | Except.ok rec =>
      match releaseBodyAuthor rec with
      | Except.error e => ([r.1], Except.error e)
      | Except.ok p =>
        if p.1.isEmpty then
          let c := commitGather tool env repoUrl gitHash
          (r.1 :: c.1, c.2)
        else ([r.1], Except.ok p)
  else commitGather tool env repoUrl gitHash

/-- Embedding of `send_slack_notification`: a POST of
`json.dumps({'text': message})` to the webhook URL. -/
def send_slack_notification (env : Env) (webhookUrl message : Str) :
    Event × Except PyErr Unit :=
  let body := jsonTextPayload message
  (Event.post webhookUrl body,
    match env.post webhookUrl with
    | Except.error m => Except.error (PyErr.networkErr m)
    | Except.ok _ => Except.ok ())

/-- Delivery loop of `notify_release`: one `send_slack_notification` per
URL in order, aborting on the first failure. -/
def sendLoop (env : Env) (message : Str) : List Str → List Event × Except PyErr Unit
  | [] => ([], Except.ok ())
  | u :: us =>
    let s := send_slack_notification env u message
    match s.2 with
    | Except.error e => ([s.1], Except.error e)
    | Except.ok _ =>
      let r := sendLoop env message us
      (s.1 :: r.1, r.2)

/-- Embedding of `notify_release` (the `token` argument only feeds request
headers and is omitted): locate the repository, resolve the tag, gather the
changelog, build the message and deliver it to every URL. -/
def notify_release (tool : Bool) (env : Env)
    (repoUrl gitHash projectName releasedBy : Str) (slackUrls : List Str) :
    List Event × Except PyErr Unit :=
  match extract_org_repo repoUrl with
  | Except.error m => ([], Except.error (PyErr.valueErr m))
  | Except.ok orgRepo =>
    let ev0 := [Event.shell (lsRemoteCmd repoUrl)]
    match env.lsRemote repoUrl with
    | Except.error m =>
      (ev0, Except.error (PyErr.runtimeErr ("Failed to execute command: ".data ++ m)))
    | Except.ok out =>
      let tag := get_tag_for_commit out gitHash
      let g := gatherChangelog tool env orgRepo repoUrl gitHash tag
      match g.2 with
      | Except.error e => (ev0 ++ g.1, Except.error e)
      | Except.ok p =>
        let msg := build_message projectName releasedBy gitHash p.2 p.1
        let s := sendLoop env msg slackUrls
        (ev0 ++ g.1 ++ s.1, s.2)

/-- Org/repo derivation used by `dump_release_info`, per variant
(`repo_url.split(':')[1].replace('.git','')` in the script variant,
`extract_org_repo` in the tool variant). -/
def dumpOrgOf (tool : Bool) (repoUrl : Str) : Except PyErr Str :=
  match tool with
  | true =>
    match extract_org_repo repoUrl with
    | Except.error m => Except.error (PyErr.valueErr m)
    | Except.ok o => Except.ok o
  | false =>
    match rootColonOrg repoUrl with
    | none => Except.error (PyErr.lookupErr ("IndexError".data))
    | some o => Except.ok o

/-- Fallback record written by `dump_release_info` when no (truthy) release
record is available: insertion order `commit`, `message`, `author`. -/
def fallbackRec (v : JVal) (msg nm : Str) : JVal :=
  JVal.jobj (JFields.fcons ("commit".data) v
    (JFields.fcons ("message".data) (JVal.jstr msg)
      (JFields.fcons ("author".data) (JVal.jstr nm) JFields.fnil)))

/-- Embedding of `dump_release_info`, per variant: the script variant
derives org/repo by colon-splitting, the tool variant via
`extract_org_repo`; an untruthy tag or a falsy fetched record selects the
commit-based fallback record; the serialized record is written to the
output path. Returns the written content on success. -/
def dump_release_info (tool : Bool) (env : Env)
    (repoUrl gitHash outPath : Str) : List Event × Except PyErr Str :=
  match dumpOrgOf tool repoUrl with
  | Except.error e => ([], Except.error e)
  | Except.ok orgRepo =>
    let ev0 := [Event.shell (lsRemoteCmd repoUrl)]
    match env.lsRemote repoUrl with
    | Except.error m =>
      (ev0, Except.error (PyErr.runtimeErr ("Failed to execute command: ".data ++ m)))
    | Except.ok out =>
      let tag := get_tag_for_commit out gitHash
      let relE : List Event × Except PyErr JVal :=
        if optTruthy tag then
          let r := get_release_info_by_tag env orgRepo (tag.getD [])
          ([r.1], r.2)
        else ([], Except.ok (JVal.jobj JFields.fnil))
      match relE.2 with
      | Except.error e => (ev0 ++ relE.1, Except.error e)
      | Except.ok rel =>
        if jFalsy rel then
          let c := get_commit_info tool env repoUrl gitHash
          match c.2 with
          | Except.error e => (ev0 ++ relE.1 ++ c.1, Except.error e)
          | Except.ok v =>
            match commitMsgAuthor v with
            | Except.error e => (ev0 ++ relE.1 ++ c.1, Except.error e)
            | Except.ok p =>
              let content := serVal 0 (fallbackRec v p.1 p.2)
              (ev0 ++ relE.1 ++ c.1 ++ [Event.writeFile outPath content], Except.ok content)
        else
          let content := serVal 0 rel
          (ev0 ++ relE.1 ++ [Event.writeFile outPath content], Except.ok content)

/-- Opening a file for writing (`open(output_file, 'w')`) replaces any
previous content unconditionally. -/
def writeOut (_prior : Option Str) (content : Str) : Option Str := some content

/-- Required CLI/environment inputs plus the optional dump path. -/
structure CliArgs where
  gitRepoUrl : Option Str
  gitHash : Option Str
  projectName : Option Str
  releasedBy : Option Str
  releaseBotToken : Option Str
  slackUrlRelease : Option Str
  dumpReleaseInfo : Option Str

/-- Python truthiness used by `all([...])` over the argument values. -/
def truthyOpt : Option Str → Bool
  | some s => !s.isEmpty
  | none => false

/-- Validation guard of `main`: every required argument must be present and
non-empty, or `parser.error` fires. -/
def argsComplete (a : CliArgs) : Bool :=
  truthyOpt a.gitRepoUrl && truthyOpt a.gitHash && truthyOpt a.projectName &&
  truthyOpt a.releasedBy && truthyOpt a.releaseBotToken && truthyOpt a.slackUrlRelease

/-- Webhook list as computed by `main`: the raw comma-split of
`--slack-url-release`, with no trimming or filtering. -/
def slackUrlsOfRaw (raw : Str) : List Str := pySplit [','] raw

/-- Outcome of one whole process run: exit status, lines printed to
standard output, error-level lines on the error stream (the tool variant's
logger prefixes are abstracted away), and the external actions performed. -/
structure TopResult where
  exitCode : Nat
  stdoutLines : List Str
  stderrLines : List Str
  events : List Event
deriving DecidableEq

/-- Categorized one-line message of the top-level exception handlers. -/
def errMessage : PyErr → Str
  | PyErr.networkErr m => "Network Error: ".data ++ m
  | PyErr.valueErr m => "Value Error: ".data ++ m
  | PyErr.runtimeErr m => "Unexpected Error: ".data ++ m
  | PyErr.lookupErr m => "Unexpected Error: ".data ++ m

/-- Usage message of `parser.error` (content abstracted). -/
def usageErrorLine : Str :=
  "usage: all arguments must be provided either as command-line parameters or environment variables".data

/-- Embedding of the whole entry point (`main` plus, for `slackbot.py`, the
`if __name__` handler): validate arguments (usage error, status 2, before
any external call), run `notify_release`, then optionally
`dump_release_info`; on failure print one categorized line — to standard
output in `slackbot.py` (`print`), to the error stream in
`tool/slackbot.py` (`logger.error`) — and exit 1; exit 0 on success. -/
def entryMain (tool : Bool) (env : Env) (a : CliArgs) : TopResult :=
  if argsComplete a then
    let url := a.gitRepoUrl.getD []
    let gitHash := a.gitHash.getD []
    let slackUrls := slackUrlsOfRaw (a.slackUrlRelease.getD [])
    let n := notify_release tool env url gitHash (a.projectName.getD [])
      (a.releasedBy.getD []) slackUrls
    match n.2 with
    | Except.error e =>
      if tool then ⟨1, [], [errMessage e], n.1⟩ else ⟨1, [errMessage e], [], n.1⟩
    | Except.ok _ =>
      if truthyOpt a.dumpReleaseInfo then
        let d := dump_release_info tool env url gitHash (a.dumpReleaseInfo.getD [])
        match d.2 with
        | Except.error e =>
          if tool then ⟨1, [], [errMessage e], n.1 ++ d.1⟩
          else ⟨1, [errMessage e], [], n.1 ++ d.1⟩
        | Except.ok _ => ⟨0, [], [], n.1 ++ d.1⟩
      else ⟨0, [], [], n.1⟩
  else ⟨2, [], [usageErrorLine], []⟩

/-- Test for a commit-fetch event. -/
def isCommitFetch : Event → Bool
  | Event.getCommit _ => true
  | _ => false

/-- Whether the Commit Metadata Fetcher was invoked during a run. -/
def hasCommitFetch (events : List Event) : Bool := events.any isCommitFetch

/-- Release record with an empty changelog body (used to exercise the
empty-body behaviour of the notify path). -/
def recEmptyBody : JVal :=
  JVal.jobj (JFields.fcons ("body".data) (JVal.jstr [])
    (JFields.fcons ("author".data)
      (JVal.jobj (JFields.fcons ("login".data) (JVal.jstr ("oc".data)) JFields.fnil))
      JFields.fnil))

/-- Concrete commit record: message `m1`, author name `N`. -/
def comRecN : JVal :=
  JVal.jobj (JFields.fcons ("commit".data)
    (JVal.jobj (JFields.fcons ("message".data) (JVal.jstr ("m1".data))
      (JFields.fcons ("author".data)
        (JVal.jobj (JFields.fcons ("name".data) (JVal.jstr ("N".data)) JFields.fnil))
        JFields.fnil)))
    JFields.fnil)

/-- Environment where the tag of commit `aaa` resolves to `v1` and the
release record has an empty body. -/
def envEmptyBody : Env :=
  { lsRemote := fun _ => Except.ok ("aaa refs/tags/v1".data)
  , httpGet := fun _ => Except.ok recEmptyBody
  , post := fun _ => Except.ok () }

/-- Environment where every HTTP GET fails with message `boom`. -/
def envGetFails : Env :=
  { lsRemote := fun _ => Except.ok []
  , httpGet := fun _ => Except.error ("boom".data)
  , post := fun _ => Except.ok () }

/-- Environment where every external call succeeds trivially. -/
def envAllOk : Env :=
  { lsRemote := fun _ => Except.ok []
  , httpGet := fun _ => Except.ok JVal.jnull
  , post := fun _ => Except.ok () }

/-- Environment where the tag of commit `aaa` resolves to `v1`, the release
record fetched for it is the empty JSON object, and the commit record is
`comRecN`. -/
def envEmptyRelease : Env :=
  { lsRemote := fun _ => Except.ok ("aaa refs/tags/v1".data)
  , httpGet := fun u =>
      if u = releaseApiUrl ("o/r".data) ("v1".data) then Except.ok (JVal.jobj JFields.fnil)
      else Except.ok comRecN
  , post := fun _ => Except.ok () }

/-- Environment where exactly the webhook URL `bad` fails. -/
def envBadPost : Env :=
  { lsRemote := fun _ => Except.ok []
  , httpGet := fun _ => Except.ok JVal.jnull
  , post := fun u => if u = ("bad".data : Str) then Except.error ("down".data) else Except.ok () }

/-- Complete argument set pointing at an SSH-form repository URL. -/
def argsSsh : CliArgs :=
  ⟨some ("git@h:o/r".data), some ("zzz".data), some ("P".data), some ("u".data),
   some ("t".data), some ("u1,u2".data), none⟩

/-- The HTTPS example URL from the module docstring. -/
def exampleHttpsUrl : Str := "https://github.com/example/repo.git".data

/-- A second HTTPS URL, used for the variant-equivalence analysis. -/
def acmeHttpsUrl : Str := "https://github.com/acme/widget.git".data

/-- A listing line whose tag name contains a non-suffix `^` + braces
dereference marker. -/
def cexTagLine : Str := "h ".data ++ refsTags ++ ('a' :: (caretBraces ++ ['b']))

/-- Expected formatted message for the fixed example inputs of the spec. -/
def expectedC5 : Str :=
  ("*Release Notification:*\n*Project:* ProjectX\n*Released by:* username\n*Commit:* abcdef\n*Author:* authorName\n*".data)
    ++ wcStr ++ (":*\n```\nchange1\nchange2\n```".data)

/-- Splitting never returns the empty list: Python `split` always yields at
least one part. -/
theorem pySplitF_ne_nil (sep : Str) : ∀ (fuel : Nat) (s : Str), pySplitF sep fuel s ≠ [] := by
  intro fuel
  induction fuel with
  | zero => intro s; cases s <;> simp [pySplitF]
  | succ f ih =>
    intro s
    cases s with
    | nil => simp [pySplitF]
    | cons c cs =>
      by_cases hp : sep.isPrefixOf (c :: cs)
      · simp [pySplitF, hp]
      · simp only [pySplitF, hp, Bool.false_eq_true, if_false]
        cases h : pySplitF sep f cs <;> simp

/-- Splitting never returns the empty list (top-level version). -/
theorem pySplit_ne_nil (sep s : Str) : pySplit sep s ≠ [] := pySplitF_ne_nil sep s.length s

/-- The fuel is irrelevant once it covers the length of the string. -/
theorem pySplitF_fuel_eq (sep : Str) : ∀ (f1 f2 : Nat) (s : Str),
    s.length ≤ f1 → s.length ≤ f2 → pySplitF sep f1 s = pySplitF sep f2 s := by
  intro f1
  induction f1 with
  | zero =>
    intro f2 s h1 _
    cases s with
    | nil => cases f2 <;> simp [pySplitF]
    | cons c cs => simp at h1
  | succ f ih =>
    intro f2 s h1 h2
    cases s with
    | nil => cases f2 <;> simp [pySplitF]
    | cons c cs =>
      cases f2 with
      | zero => simp at h2
      | succ f2' =>
        simp only [List.length_cons, Nat.succ_le_succ_iff] at h1 h2
        by_cases hp : sep.isPrefixOf (c :: cs)
        · simp only [pySplitF, hp, if_true]
          have hd : (List.drop (sep.length - 1) cs).length ≤ cs.length := by
            simp [List.length_drop]
          rw [ih f2' _ (le_trans hd h1) (le_trans hd h2)]
        · simp only [pySplitF, hp, Bool.false_eq_true, if_false]
          rw [ih f2' cs h1 h2]

/-- When the pattern does not occur, `upTo` is the whole string. -/
theorem upTo_eq_self (pat : Str) : ∀ s, hasOcc pat s = false → upTo pat s = s := by
  intro s
  induction s with
  | nil => intro _; simp [upTo]
  | cons c cs ih =>
    intro h
    simp only [hasOcc, Bool.or_eq_false_iff] at h
    simp [upTo, h.1, ih h.2]

/-- Characterization of Python `split`: the first part is the prefix before
the first occurrence of the separator, and the remaining parts are the split
of the suffix after it. -/
theorem pySplitF_eq (sep : Str) (hsep : sep ≠ []) : ∀ (fuel : Nat) (s : Str), s.length ≤ fuel →
    pySplitF sep fuel s =
      upTo sep s :: (if hasOcc sep s then pySplit sep (afterFirst sep s) else []) := by
  intro fuel
  induction fuel with
  | zero =>
    intro s h
    cases s with
    | nil =>
      have : hasOcc sep [] = false := by
        simp [hasOcc, List.isEmpty_iff, hsep]
      simp [pySplitF, upTo, this]
    | cons c cs => simp at h
  | succ f ih =>
    intro s h
    cases s with
    | nil =>
      have : hasOcc sep [] = false := by
        simp [hasOcc, List.isEmpty_iff, hsep]
      simp [pySplitF, upTo, this]
    | cons c cs =>
      simp only [List.length_cons, Nat.succ_le_succ_iff] at h
      by_cases hp : sep.isPrefixOf (c :: cs)
      · have hocc : hasOcc sep (c :: cs) = true := by simp [hasOcc, hp]
        have hup : upTo sep (c :: cs) = [] := by simp [upTo, hp]
        have haf : afterFirst sep (c :: cs) = List.drop (sep.length - 1) cs := by
          simp [afterFirst, hp]
        have hd : (List.drop (sep.length - 1) cs).length ≤ cs.length := by
          simp [List.length_drop]
        simp only [pySplitF, hp, if_true, hocc, hup, haf]
        rw [pySplitF_fuel_eq sep f (List.drop (sep.length - 1) cs).length _
          (le_trans hd h) (le_refl _)]
        rfl
      · have hocc : hasOcc sep (c :: cs) = hasOcc sep cs := by
          simp [hasOcc, hp]
        have hup : upTo sep (c :: cs) = c :: upTo sep cs := by simp [upTo, hp]
        have haf : afterFirst sep (c :: cs) = afterFirst sep cs := by
          simp [afterFirst, hp]
        simp only [pySplitF, hp, Bool.false_eq_true, if_false]
        rw [ih cs h]
        simp [hocc, hup, haf]

/-- Characterization of Python `split` (top-level version). -/
theorem pySplit_eq (sep : Str) (hsep : sep ≠ []) (s : Str) :
    pySplit sep s =
      upTo sep s :: (if hasOcc sep s then pySplit sep (afterFirst sep s) else []) :=
  pySplitF_eq sep hsep s.length s (le_refl _)

/-- Element 1 of a Python `split` whose separator occurs: the segment after
the first occurrence, truncated before the next one. -/
theorem pySplit_get1 (sep : Str) (hsep : sep ≠ []) (s : Str) (hocc : hasOcc sep s = true) :
    (pySplit sep s).get? 1 = some (upTo sep (afterFirst sep s)) := by
  rw [pySplit_eq sep hsep s, hocc]
  simp only [if_true, List.get?_cons_succ]
  rw [pySplit_eq sep hsep (afterFirst sep s)]
  rfl

/-- Splitting on a one-character separator agrees with the direct
single-character splitter. -/
theorem pySplitF_singleton (c : Char) : ∀ (fuel : Nat) (s : Str), s.length ≤ fuel →
    pySplitF [c] fuel s = splitCh c s := by
  intro fuel
  induction fuel with
  | zero =>
    intro s h
    cases s with
    | nil => simp [pySplitF, splitCh]
    | cons a as => simp at h
  | succ f ih =>
    intro s h
    cases s with
    | nil => simp [pySplitF, splitCh]
    | cons a as =>
      simp only [List.length_cons, Nat.succ_le_succ_iff] at h
      have hpre : ([c].isPrefixOf (a :: as)) = (c == a) := by
        simp [List.isPrefixOf]
      by_cases hc : a = c
      · subst hc
        have h1 : pySplitF [a] (f + 1) (a :: as) = [] :: pySplitF [a] f as := by
          simp [pySplitF, List.isPrefixOf]
        have h2 : splitCh a (a :: as) = [] :: splitCh a as := by
          simp [splitCh]
        rw [h1, h2, ih as h]
      · have hne : (c == a) = false := by
          simp [beq_iff_eq]
          exact fun hh => hc hh.symm
        simp only [pySplitF, hpre, hne, Bool.false_eq_true, if_false, splitCh, if_neg hc]
        rw [ih as h]

/-- Splitting on a one-character separator (top-level version). -/
theorem pySplit_singleton (c : Char) (s : Str) : pySplit [c] s = splitCh c s :=
  pySplitF_singleton c s.length s (le_refl _)

/-- The single-character splitter never returns the empty list. -/
theorem splitCh_ne_nil (c : Char) : ∀ s, splitCh c s ≠ [] := by
  intro s
  induction s with
  | nil => simp [splitCh]
  | cons a as ih =>
    by_cases hc : a = c
    · simp [splitCh, hc]
    · simp only [splitCh, if_neg hc]
      cases h : splitCh c as <;> simp

/-- Joining the parts with the separator recovers the original string:
splitting is exact, with no trimming or dropping. -/
theorem joinSep_splitCh (c : Char) : ∀ s, joinSep c (splitCh c s) = s := by
  intro s
  induction s with
  | nil => simp [splitCh, joinSep]
  | cons a as ih =>
    by_cases hc : a = c
    · subst hc
      simp only [splitCh, if_pos rfl]
      cases h : splitCh a as with
      | nil => exact absurd h (splitCh_ne_nil a as)
      | cons g gs =>
        rw [h] at ih
        cases gs with
        | nil => simp [joinSep] at ih ⊢; exact ih
        | cons g2 gs2 => simp [joinSep] at ih ⊢; exact ih
    · simp only [splitCh, if_neg hc]
      cases h : splitCh c as with
      | nil => exact absurd h (splitCh_ne_nil c as)
      | cons g gs =>
        rw [h] at ih
        cases gs with
        | nil => simp [joinSep] at ih ⊢; exact ih
        | cons g2 gs2 =>
          simp only [joinSep] at ih ⊢
          rw [List.cons_append, ih]

/-- No part produced by the splitter contains the separator. -/
theorem splitCh_no_sep (c : Char) : ∀ s, ∀ p ∈ splitCh c s, c ∉ p := by
  intro s
  induction s with
  | nil =>
    intro p hp
    simp [splitCh] at hp
    subst hp
    simp
  | cons a as ih =>
    intro p hp
    by_cases hc : a = c
    · simp only [splitCh, if_pos hc, List.mem_cons] at hp
      rcases hp with hp | hp
      · subst hp; simp
      · exact ih p hp
    · simp only [splitCh, if_neg hc] at hp
      cases h : splitCh c as with
      | nil => exact absurd h (splitCh_ne_nil c as)
      | cons g gs =>
        rw [h] at hp
        simp only [List.mem_cons] at hp
        rcases hp with hp | hp
        · subst hp
          intro hmem
          rcases List.mem_cons.mp hmem with hh | hh
          · exact hc hh.symm
          · exact ih g (h ▸ List.mem_cons_self g gs) hh
        · exact ih p (h ▸ List.mem_cons.mpr (Or.inr hp))

/-- Appending a trailing separator appends exactly one empty part. -/
theorem splitCh_append_sep (c : Char) : ∀ s, splitCh c (s ++ [c]) = splitCh c s ++ [[]] := by
  intro s
  induction s with
  | nil => simp [splitCh]
  | cons a as ih =>
    by_cases hc : a = c
    · simp only [List.cons_append, splitCh, if_pos hc, List.append_eq]
      rw [ih]
    · simp only [List.cons_append, splitCh, if_neg hc, List.append_eq, ih]
      cases h : splitCh c as with
      | nil => exact absurd h (splitCh_ne_nil c as)
      | cons g gs => simp

/-- A separator-free string splits into the single part equal to itself. -/
theorem splitCh_of_not_mem (c : Char) : ∀ s, c ∉ s → splitCh c s = [s] := by
  intro s
  induction s with
  | nil => intro _; simp [splitCh]
  | cons a as ih =>
    intro h
    have ha : a ≠ c := fun hh => h (hh ▸ List.mem_cons_self a as)
    have has : c ∉ as := fun hh => h (List.mem_cons.mpr (Or.inr hh))
    simp only [splitCh, if_neg ha, ih has]

/-- Splitting at the unique separator occurrence: a separator-free prefix
becomes the head part. -/
theorem splitCh_append_cons (c : Char) : ∀ (l1 l2 : Str), c ∉ l1 →
    splitCh c (l1 ++ c :: l2) = l1 :: splitCh c l2 := by
  intro l1
  induction l1 with
  | nil => intro l2 _; simp [splitCh]
  | cons a as ih =>
    intro l2 h
    have ha : a ≠ c := fun hh => h (hh ▸ List.mem_cons_self a as)
    have has : c ∉ as := fun hh => h (List.mem_cons.mpr (Or.inr hh))
    simp only [List.cons_append, splitCh, if_neg ha, List.append_eq, ih l2 has]

/-- A `takeWhile` over an all-satisfying prefix passes through it. -/
theorem takeWhile_append_all (p : Char → Bool) : ∀ (l1 l2 : Str), (∀ c ∈ l1, p c = true) →
    List.takeWhile p (l1 ++ l2) = l1 ++ List.takeWhile p l2 := by
  intro l1
  induction l1 with
  | nil => intro l2 _; simp
  | cons a as ih =>
    intro l2 h
    have ha : p a = true := h a (List.mem_cons_self a as)
    have has : ∀ c ∈ as, p c = true := fun c hc => h c (List.mem_cons.mpr (Or.inr hc))
    simp [List.takeWhile_cons, ha, ih l2 has]

/-- A `dropWhile` over an all-satisfying prefix discards it. -/
theorem dropWhile_append_all (p : Char → Bool) : ∀ (l1 l2 : Str), (∀ c ∈ l1, p c = true) →
    List.dropWhile p (l1 ++ l2) = List.dropWhile p l2 := by
  intro l1
  induction l1 with
  | nil => intro l2 _; simp
  | cons a as ih =>
    intro l2 h
    have ha : p a = true := h a (List.mem_cons_self a as)
    have has : ∀ c ∈ as, p c = true := fun c hc => h c (List.mem_cons.mpr (Or.inr hc))
    simp [List.dropWhile_cons, ha, ih l2 has]

/-- A `takeWhile` whose predicate holds everywhere returns the whole list. -/
theorem takeWhile_all (p : Char → Bool) (l : Str) (h : ∀ c ∈ l, p c = true) :
    List.takeWhile p l = l := by
  have := takeWhile_append_all p l [] h
  simpa using this

/-- The part after the last occurrence of a separator, for a suffix free of
the separator. -/
theorem afterLastCh_append (c : Char) (l1 l2 : Str) (h : c ∉ l2) :
    afterLastCh c (l1 ++ c :: l2) = l2 := by
  unfold afterLastCh
  have h2 : ∀ x ∈ l2.reverse, (!(x == c)) = true := by
    intro x hx
    have : x ≠ c := fun hh => h (hh ▸ List.mem_reverse.mp hx)
    simp [this]
  have hrev : (l1 ++ c :: l2).reverse = l2.reverse ++ c :: l1.reverse := by
    simp
  rw [hrev, takeWhile_append_all _ _ _ h2]
  simp [List.takeWhile_cons]

/-- The part after the last occurrence, when the separator does not occur at
all, is the whole string. -/
theorem afterLastCh_of_not_mem (c : Char) (s : Str) (h : c ∉ s) :
    afterLastCh c s = s := by
  unfold afterLastCh
  rw [takeWhile_all, List.reverse_reverse]
  intro x hx
  have : x ≠ c := fun hh => h (hh ▸ List.mem_reverse.mp hx)
  simp [this]

/-- Index of the first occurrence of a character across a prefix free of it. -/
theorem findIdxCh_append (ch : Char) : ∀ (l1 l2 : Str), ch ∉ l1 →
    findIdxCh ch (l1 ++ ch :: l2) = some l1.length := by
  intro l1
  induction l1 with
  | nil => intro l2 _; simp [findIdxCh]
  | cons a as ih =>
    intro l2 h
    have ha : a ≠ ch := fun hh => h (hh ▸ List.mem_cons_self a as)
    have has : ch ∉ as := fun hh => h (List.mem_cons.mpr (Or.inr hh))
    simp [findIdxCh, ha, ih l2 has]

/-- The WHATWG normalisation is the identity on strings of printable
non-space characters. -/
theorem wsNorm_eq_self (s : Str) (h : ∀ c ∈ s, 32 < c.toNat) : wsNorm s = s := by
  unfold wsNorm
  have hd : List.dropWhile (fun c => c.toNat ≤ 32) s = s := by
    cases s with
    | nil => simp
    | cons a as =>
      have : ¬ a.toNat ≤ 32 := by
        have := h a (List.mem_cons_self a as)
        omega
      simp [List.dropWhile_cons, this]
  rw [hd, List.filter_eq_self]
  intro c hc
  have := h c hc
  have h9 : c.toNat ≠ 9 := by omega
  have h10 : c.toNat ≠ 10 := by omega
  have h13 : c.toNat ≠ 13 := by omega
  simp [h9, h10, h13]

/-- The changelog body is the filtered changelog, one line per entry, in
order, with lines containing the marker removed. -/
theorem msgBody_eq_filter : ∀ changelog : List Str,
    msgBody changelog =
      ((changelog.filter (fun ch => !hasOcc wcStr ch)).map (fun ch => ch ++ ['\n'])).flatten := by
  intro changelog
  induction changelog with
  | nil => simp [msgBody]
  | cons ch rest ih =>
    by_cases h : hasOcc wcStr ch = true
    · simp [msgBody, h, List.filter_cons, ih]
    · have h' : hasOcc wcStr ch = false := by
        cases hh : hasOcc wcStr ch
        · rfl
        · exact absurd hh h
      simp [msgBody, h', List.filter_cons, ih]

/-- The delivery loop with no failures: exactly one POST per URL, in list
order, all with the same body. -/
theorem sendLoop_all_ok (env : Env) (message : Str) : ∀ urls : List Str,
    (∀ u ∈ urls, env.post u = Except.ok ()) →
    sendLoop env message urls =
      (urls.map (fun u => Event.post u (jsonTextPayload message)), Except.ok ()) := by
  intro urls
  induction urls with
  | nil => intro _; simp [sendLoop]
  | cons u us ih =>
    intro h
    have hu : env.post u = Except.ok () := h u (List.mem_cons_self u us)
    have hus : ∀ v ∈ us, env.post v = Except.ok () := fun v hv => h v (List.mem_cons.mpr (Or.inr hv))
    simp [sendLoop, send_slack_notification, hu, ih hus]

/-- A `List.any` is false when the predicate fails everywhere. -/
theorem any_eq_false_of (p : Char → Bool) : ∀ l : Str, (∀ c ∈ l, p c = false) →
    l.any p = false := by
  intro l
  induction l with
  | nil => intro _; rfl
  | cons a as ih =>
    intro h
    have ha : p a = false := h a (List.mem_cons_self a as)
    have has : ∀ c ∈ as, p c = false := fun c hc => h c (List.mem_cons.mpr (Or.inr hc))
    simp [List.any_cons, ha, ih has]

/-- Scheme split of an URL of the concrete shape `https:<rest>`. -/
theorem splitScheme_https (w : Str) :
    splitScheme ("https".data ++ ':' :: w) = ("https".data, w) := rfl

/-- Netloc split after `//`: the netloc runs to the first `/`, `?` or `#`. -/
theorem splitNetloc_slashes (host rest : Str)
    (hh : ∀ c ∈ host, c ≠ '/' ∧ c ≠ '?' ∧ c ≠ '#') :
    splitNetloc ('/' :: '/' :: (host ++ '/' :: rest)) = (host, '/' :: rest) := by
  have hp : ∀ c ∈ host, (!(c == '/' || c == '?' || c == '#')) = true := by
    intro c hc
    obtain ⟨h1, h2, h3⟩ := hh c hc
    simp [h1, h2, h3]
  have hpre : ("//".data).isPrefixOf ('/' :: '/' :: (host ++ '/' :: rest)) = true := by
    simp [List.isPrefixOf_cons₂]
  unfold splitNetloc
  rw [if_pos hpre]
  have hdrop : List.drop 2 ('/' :: '/' :: (host ++ '/' :: rest)) = host ++ '/' :: rest := rfl
  simp only [hdrop]
  rw [takeWhile_append_all _ _ _ hp, dropWhile_append_all _ _ _ hp]
  simp [List.takeWhile_cons, List.dropWhile_cons]

/-- Parse of a well-behaved HTTPS URL `https://<host>/<rest>`: the scheme is
`https`, the netloc is the host, and the path is `/<rest>`. -/
theorem pyUrlparse_https (host rest : Str)
    (hh : ∀ c ∈ host, 32 < c.toNat ∧ c ≠ '/' ∧ c ≠ '?' ∧ c ≠ '#' ∧ c ≠ '[' ∧ c ≠ ']')
    (hr : ∀ c ∈ rest, 32 < c.toNat ∧ c ≠ '?' ∧ c ≠ '#' ∧ c ≠ ';') :
    pyUrlparse ("https://".data ++ (host ++ '/' :: rest)) =
      Except.ok ⟨"https".data, host, '/' :: rest, [], [], []⟩ := by
  have hlit : ∀ c ∈ ("https://".data : Str), 32 < c.toNat := by decide
  have hall : ∀ c ∈ ("https://".data ++ (host ++ '/' :: rest) : Str), 32 < c.toNat := by
    intro c hc
    rcases List.mem_append.mp hc with h1 | h2
    · exact hlit c h1
    · rcases List.mem_append.mp h2 with h3 | h4
      · exact (hh c h3).1
      · rcases List.mem_cons.mp h4 with rfl | h5
        · decide
        · exact (hr c h5).1
  have hnorm : wsNorm ("https://".data ++ (host ++ '/' :: rest)) =
      "https://".data ++ (host ++ '/' :: rest) := wsNorm_eq_self _ hall
  have hshape : ("https://".data ++ (host ++ '/' :: rest) : Str) =
      "https".data ++ ':' :: ('/' :: '/' :: (host ++ '/' :: rest)) := rfl
  have hsch : splitScheme ("https://".data ++ (host ++ '/' :: rest)) =
      ("https".data, '/' :: '/' :: (host ++ '/' :: rest)) := by
    rw [hshape, splitScheme_https]
  have hnet : splitNetloc ('/' :: '/' :: (host ++ '/' :: rest)) = (host, '/' :: rest) :=
    splitNetloc_slashes host rest (fun c hc => ⟨(hh c hc).2.1, (hh c hc).2.2.1, (hh c hc).2.2.2.1⟩)
  have hbr1 : host.any (fun c => c == '[') = false := by
    apply any_eq_false_of
    intro c hc
    simp [(hh c hc).2.2.2.2.1]
  have hbr2 : host.any (fun c => c == ']') = false := by
    apply any_eq_false_of
    intro c hc
    simp [(hh c hc).2.2.2.2.2]
  have hmem_path : ∀ c ∈ ('/' :: rest : Str), c ≠ '#' ∧ c ≠ '?' ∧ c ≠ ';' := by
    intro c hc
    rcases List.mem_cons.mp hc with rfl | h5
    · exact ⟨by decide, by decide, by decide⟩
    · exact ⟨(hr c h5).2.2.1, (hr c h5).2.1, (hr c h5).2.2.2⟩
  have hfrag : splitFrag ('/' :: rest) = ('/' :: rest, []) := by
    unfold splitFrag
    rw [if_neg]
    rw [any_eq_false_of _ _ (fun c hc => by simp [(hmem_path c hc).1])]
    simp
  have hquery : splitQuery ('/' :: rest) = ('/' :: rest, []) := by
    unfold splitQuery
    rw [if_neg]
    rw [any_eq_false_of _ _ (fun c hc => by simp [(hmem_path c hc).2.1])]
    simp
  have hseg : ∀ c ∈ afterLastCh '/' ('/' :: rest), c ∈ ('/' :: rest : Str) := by
    intro c hc
    unfold afterLastCh at hc
    have h1 := List.mem_reverse.mp hc
    have h2 := (List.takeWhile_prefix _).subset h1
    exact List.mem_reverse.mp h2
  have hparams : splitParams ('/' :: rest) = ('/' :: rest, []) := by
    unfold splitParams
    rw [if_neg]
    rw [any_eq_false_of _ _ (fun c hc => by simp [(hmem_path c (hseg c hc)).2.2])]
    simp
  simp only [pyUrlparse, hnorm, hsch, hnet, hfrag, hquery, hparams, hbr1, hbr2,
    Bool.and_false, Bool.false_and, Bool.and_true, Bool.not_false, Bool.false_or,
    Bool.or_false, Bool.or_self, Bool.false_eq_true, if_false]

/-- The Repository Locator on a well-behaved HTTPS URL: the path with all
leading slashes stripped and every `.git` occurrence removed. -/
theorem extract_https (host rest : Str)
    (hh : ∀ c ∈ host, 32 < c.toNat ∧ c ≠ '/' ∧ c ≠ '?' ∧ c ≠ '#' ∧ c ≠ '[' ∧ c ≠ ']')
    (hr : ∀ c ∈ rest, 32 < c.toNat ∧ c ≠ '?' ∧ c ≠ '#' ∧ c ≠ ';') :
    extract_org_repo ("https://".data ++ (host ++ '/' :: rest)) =
      Except.ok (pyReplace dotGit [] (rest.dropWhile (fun c => c == '/'))) := by
  simp only [extract_org_repo, pyUrlparse_https host rest hh hr]
  rw [if_pos (Or.inr trivial)]
  have : List.dropWhile (fun c => c == '/') ('/' :: rest) =
      List.dropWhile (fun c => c == '/') rest := by
    simp [List.dropWhile_cons]
  rw [this]

/-- A printable character is not a newline. -/
theorem gt32_not_nl (c : Char) (hc : 32 < c.toNat) : (!(c == '\n')) = true := by
  have hne : c ≠ '\n' := by
    intro hh
    rw [hh] at hc
    exact absurd hc (by decide)
  simp [hne]

/-- The Repository Locator on an SSH shorthand URL `git@<u>:<v>` with a
single colon: the part after the colon with every `.git` occurrence
removed. -/
theorem extract_ssh (u v : Str) (hu : ':' ∉ u) (hv : ':' ∉ v)
    (hu2 : ∀ c ∈ u, 32 < c.toNat) (hv2 : ∀ c ∈ v, 32 < c.toNat) :
    extract_org_repo ("git@".data ++ (u ++ ':' :: v)) =
      Except.ok (pyReplace dotGit [] v) := by
  have hall : ∀ c ∈ ("git@".data ++ (u ++ ':' :: v) : Str), 32 < c.toNat := by
    intro c hc
    rcases List.mem_append.mp hc with h1 | h2
    · have : c ∈ (['g', 'i', 't', '@'] : Str) := h1
      fin_cases this <;> decide
    · rcases List.mem_append.mp h2 with h3 | h4
      · exact hu2 c h3
      · rcases List.mem_cons.mp h4 with rfl | h5
        · decide
        · exact hv2 c h5
  have hnorm : wsNorm ("git@".data ++ (u ++ ':' :: v)) = "git@".data ++ (u ++ ':' :: v) :=
    wsNorm_eq_self _ hall
  have hshape : ("git@".data ++ (u ++ ':' :: v) : Str) = ("git@".data ++ u) ++ ':' :: v := by
    simp [List.append_assoc]
  have hnocolon : ':' ∉ ("git@".data ++ u : Str) := by
    intro hc
    rcases List.mem_append.mp hc with h1 | h2
    · exact absurd h1 (by decide)
    · exact hu h2
  have hfi : findIdxCh ':' ("git@".data ++ (u ++ ':' :: v)) =
      some (("git@".data ++ u : Str)).length := by
    rw [hshape]
    exact findIdxCh_append ':' _ v hnocolon
  have hsch : splitScheme ("git@".data ++ (u ++ ':' :: v)) =
      ([], "git@".data ++ (u ++ ':' :: v)) := by
    unfold splitScheme
    simp only [hfi]
    rw [if_neg]
    intro hcond
    obtain ⟨_, hforall, _⟩ := hcond
    have hat : '@' ∈ List.take (("git@".data ++ u : Str)).length
        ("git@".data ++ (u ++ ':' :: v)) := by
      rw [hshape, List.take_left]
      exact List.mem_append.mpr (Or.inl (by decide))
    have := hforall '@' hat
    exact absurd this (by decide)
  have hnet : splitNetloc ("git@".data ++ (u ++ ':' :: v)) =
      ([], "git@".data ++ (u ++ ':' :: v)) := by
    unfold splitNetloc
    rw [if_neg]
    intro hpre
    simp [List.isPrefixOf_cons₂] at hpre
  have hgroup : sshGroup2 ("git@".data ++ (u ++ ':' :: v)) = some v := by
    unfold sshGroup2
    rw [if_pos]
    · have hdrop : (("git@".data ++ (u ++ ':' :: v)) : Str).drop 4 = u ++ ':' :: v := rfl
      rw [hdrop]
      have htw : List.takeWhile (fun c => !(c == '\n')) (u ++ ':' :: v) = u ++ ':' :: v := by
        apply takeWhile_all
        intro c hc
        rcases List.mem_append.mp hc with h1 | h2
        · exact gt32_not_nl c (hu2 c h1)
        · rcases List.mem_cons.mp h2 with rfl | h3
          · decide
          · exact gt32_not_nl c (hv2 c h3)
      rw [htw]
      rw [if_pos]
      · rw [afterLastCh_append ':' u v hv]
      · refine List.any_eq_true.mpr ⟨':', ?_, ?_⟩
        · exact List.mem_append.mpr (Or.inr (List.mem_cons_self ':' v))
        · simp
    · simp [List.isPrefixOf_cons₂]
  simp only [extract_org_repo, pyUrlparse, hnorm, hsch, hnet, List.any_nil,
    Bool.false_and, Bool.and_false, Bool.or_self, Bool.false_eq_true, if_false, hgroup]
  rw [if_neg]
  intro hcond
  rcases hcond with h1 | h1 <;> exact absurd h1 (by decide)

/-- The colon-split derivation of the script variant, on an SSH shorthand
URL with a single colon: the same value as the Repository Locator. -/
theorem rootColonOrg_ssh (u v : Str) (hu : ':' ∉ u) (hv : ':' ∉ v) :
    rootColonOrg ("git@".data ++ (u ++ ':' :: v)) = some (pyReplace dotGit [] v) := by
  unfold rootColonOrg
  rw [pySplit_singleton]
  have hshape : ("git@".data ++ (u ++ ':' :: v) : Str) = ("git@".data ++ u) ++ ':' :: v := by
    simp [List.append_assoc]
  have hnocolon : ':' ∉ ("git@".data ++ u : Str) := by
    intro hc
    rcases List.mem_append.mp hc with h1 | h2
    · exact absurd h1 (by decide)
    · exact hu h2
  rw [hshape, splitCh_append_cons ':' _ v hnocolon, splitCh_of_not_mem ':' v hv]
  rfl

/-- The delivery loop halting at the first failure: the POSTs attempted are
exactly those for the successful prefix plus the failing URL, and the error
propagates. -/
theorem sendLoop_first_fail (env : Env) (message : Str) : ∀ (pre : List Str) (u : Str)
    (rest : List Str) (m : Str), (∀ v ∈ pre, env.post v = Except.ok ()) →
    env.post u = Except.error m →
    sendLoop env message (pre ++ u :: rest) =
      ((pre ++ [u]).map (fun v => Event.post v (jsonTextPayload message)),
        Except.error (PyErr.networkErr m)) := by
  intro pre
  induction pre with
  | nil =>
    intro u rest m _ hu
    simp [sendLoop, send_slack_notification, hu]
  | cons v vs ih =>
    intro u rest m h hu
    have hv : env.post v = Except.ok () := h v (List.mem_cons_self v vs)
    have hvs : ∀ w ∈ vs, env.post w = Except.ok () := fun w hw => h w (List.mem_cons.mpr (Or.inr hw))
    simp [sendLoop, send_slack_notification, hv, ih u rest m hvs hu]

/-- No event of the delivery loop is a commit fetch. -/
theorem sendLoop_no_commit (env : Env) (message : Str) : ∀ urls : List Str,
    (sendLoop env message urls).1.any isCommitFetch = false := by
  intro urls
  induction urls with
  | nil => rfl
  | cons u us ih =>
    simp only [sendLoop, send_slack_notification]
    cases h : env.post u with
    | error m => simp [isCommitFetch]
    | ok _ => simp [List.any_cons, isCommitFetch, ih]

/-- Every POST event of the delivery loop carries the JSON body of the one
message being delivered. -/
theorem sendLoop_post_body (env : Env) (message : Str) : ∀ (urls : List Str) (u b : Str),
    Event.post u b ∈ (sendLoop env message urls).1 → b = jsonTextPayload message := by
  intro urls
  induction urls with
  | nil => intro u b h; simp [sendLoop] at h
  | cons w ws ih =>
    intro u b h
    simp only [sendLoop, send_slack_notification] at h
    cases hw : env.post w with
    | error m =>
      rw [hw] at h
      simp only [List.mem_singleton, Event.post.injEq] at h
      exact h.2
    | ok _ =>
      rw [hw] at h
      rcases List.mem_cons.mp h with h1 | h1
      · simp only [Event.post.injEq] at h1
        exact h1.2
      · exact ih u b h1

/-- A character of the normalised URL is a character of the URL. -/
theorem mem_of_mem_wsNorm (c : Char) (s : Str) (h : c ∈ wsNorm s) : c ∈ s := by
  unfold wsNorm at h
  have h1 := List.mem_of_mem_filter h
  exact (List.dropWhile_sublist _).subset h1

/-- A found index means the character occurs. -/
theorem mem_of_findIdxCh_some (ch : Char) : ∀ (s : Str) (i : Nat),
    findIdxCh ch s = some i → ch ∈ s := by
  intro s
  induction s with
  | nil => intro i h; simp [findIdxCh] at h
  | cons a as ih =>
    intro i h
    by_cases ha : a = ch
    · exact ha ▸ List.mem_cons_self a as
    · simp only [findIdxCh, if_neg ha] at h
      cases h2 : findIdxCh ch as with
      | none => rw [h2] at h; simp at h
      | some j => exact List.mem_cons.mpr (Or.inr (ih j h2))

/-- A successful Repository Locator run implies the URL contains a colon
(so the script variant's colon-split derivation cannot raise). -/
theorem colon_of_extract_ok (url o : Str) (h : extract_org_repo url = Except.ok o) :
    ':' ∈ url := by
  unfold extract_org_repo at h
  cases hup : pyUrlparse url with
  | error m => rw [hup] at h; exact absurd h (by simp)
  | ok p =>
    rw [hup] at h
    by_cases hs : p.scheme = "http".data ∨ p.scheme = "https".data
    · have hscheme : p.scheme = (splitScheme (wsNorm url)).1 := by
        simp only [pyUrlparse] at hup
        split at hup
        · exact absurd hup (by simp)
        · simp only [Except.ok.injEq] at hup
          rw [← hup]
      have hne : p.scheme ≠ [] := by
        rcases hs with h1 | h1 <;> rw [h1] <;> decide
      cases hfi : findIdxCh ':' (wsNorm url) with
      | none =>
        rw [hscheme] at hne
        unfold splitScheme at hne
        rw [hfi] at hne
        exact absurd rfl hne
      | some i =>
        exact mem_of_mem_wsNorm ':' url (mem_of_findIdxCh_some ':' (wsNorm url) i hfi)
    · dsimp only [] at h
      rw [if_neg hs] at h
      cases hg : sshGroup2 url with
      | none => rw [hg] at h; exact absurd h (by simp)
      | some g =>
        unfold sshGroup2 at hg
        split at hg
        · dsimp only [] at hg
          split at hg
          · rename_i hany
            have ⟨c, hc1, hc2⟩ := List.any_eq_true.mp hany
            have hcc : c = ':' := by
              have := beq_iff_eq.mp hc2
              exact this
            have h3 := (List.takeWhile_prefix _).subset hc1
            have h4 := (List.drop_sublist 4 url).subset h3
            exact hcc ▸ h4
          · exact absurd hg (by simp)
        · exact absurd hg (by simp)

/-- When the separator occurs, the single-character split has an element at
index 1. -/
theorem splitCh_get1_of_mem (c : Char) : ∀ s : Str, c ∈ s →
    ∃ w, (splitCh c s).get? 1 = some w := by
  intro s
  induction s with
  | nil => intro h; simp at h
  | cons a as ih =>
    intro h
    by_cases hc : a = c
    · simp only [splitCh, if_pos hc]
      cases h2 : splitCh c as with
      | nil => exact absurd h2 (splitCh_ne_nil c as)
      | cons g gs => exact ⟨g, rfl⟩
    · have hmem : c ∈ as := by
        rcases List.mem_cons.mp h with h1 | h1
        · exact absurd h1.symm hc
        · exact h1
      obtain ⟨w, hw⟩ := ih hmem
      simp only [splitCh, if_neg hc]
      cases h2 : splitCh c as with
      | nil => exact absurd h2 (splitCh_ne_nil c as)
      | cons g gs =>
        rw [h2] at hw
        exact ⟨w, hw⟩

/-- When the Repository Locator succeeds, the colon-split derivation of the
script variant also yields a value. -/
theorem rootColonOrg_of_extract_ok (url o : Str) (h : extract_org_repo url = Except.ok o) :
    ∃ o2, rootColonOrg url = some o2 := by
  obtain ⟨w, hw⟩ := splitCh_get1_of_mem ':' url (colon_of_extract_ok url o h)
  refine ⟨pyReplace dotGit [] w, ?_⟩
  unfold rootColonOrg
  rw [pySplit_singleton, hw]
  rfl

/-- The commit fetch per variant, characterised by the API URL it targets:
one `getCommit` event and the raw HTTP GET result. -/
theorem get_commit_info_of_url (tool : Bool) (env : Env) (repoUrl gitHash cu : Str)
    (hcu : commitUrlOf tool repoUrl gitHash = some cu) :
    get_commit_info tool env repoUrl gitHash =
      ([Event.getCommit cu],
        match env.httpGet cu with
        | Except.error m => Except.error (PyErr.networkErr m)
        | Except.ok v => Except.ok v) := by
  cases tool with
  | true =>
    unfold commitUrlOf at hcu
    cases hx : extract_org_repo repoUrl with
    | error m => rw [hx] at hcu; simp [Except.toOption] at hcu
    | ok orgRepo =>
      rw [hx] at hcu
      simp only [Except.toOption, Option.map_some', Option.some.injEq] at hcu
      unfold get_commit_info
      rw [hx]
      dsimp only []
      rw [hcu]
  | false =>
    unfold commitUrlOf at hcu
    cases hr : rootColonOrg repoUrl with
    | none => rw [hr] at hcu; simp at hcu
    | some orgRepo =>
      rw [hr] at hcu
      simp only [Option.map_some', Option.some.injEq] at hcu
      unfold get_commit_info
      rw [hr]
      dsimp only []
      rw [hcu]

/-- The commit fetch (either variant) emits exactly one `getCommit` event
whenever the Repository Locator succeeds on the URL. -/
theorem get_commit_info_events (tool : Bool) (env : Env) (repoUrl gitHash orgRepo : Str)
    (hx : extract_org_repo repoUrl = Except.ok orgRepo) :
    ∃ u, (get_commit_info tool env repoUrl gitHash).1 = [Event.getCommit u] := by
  cases tool with
  | true =>
    refine ⟨commitApiUrl orgRepo gitHash, ?_⟩
    unfold get_commit_info
    rw [hx]
  | false =>
    obtain ⟨o2, ho2⟩ := rootColonOrg_of_extract_ok repoUrl orgRepo hx
    refine ⟨commitApiUrl o2 gitHash, ?_⟩
    unfold get_commit_info
    rw [ho2]

/-- A successful body/author extraction yields a changelog list that is
never empty (Python `split` semantics). -/
theorem releaseBodyAuthor_fst_ne_nil (v : JVal) (p : List Str × Str)
    (h : releaseBodyAuthor v = Except.ok p) : p.1 ≠ [] := by
  unfold releaseBodyAuthor at h
  split at h
  · exact absurd h (by simp)
  · split at h
    · exact absurd h (by simp)
    · split at h
      · exact absurd h (by simp)
      · split at h
        · exact absurd h (by simp)
        · split at h
          · exact absurd h (by simp)
          · simp only [Except.ok.injEq] at h
            rw [← h]
            exact pySplit_ne_nil _ _

/-- The commit fallback always records its fetch attempt. -/
theorem commitGather_hasFetch (tool : Bool) (env : Env) (repoUrl gitHash orgRepo : Str)
    (hx : extract_org_repo repoUrl = Except.ok orgRepo) :
    hasCommitFetch (commitGather tool env repoUrl gitHash).1 = true := by
  obtain ⟨cu, hcu⟩ := get_commit_info_events tool env repoUrl gitHash orgRepo hx
  unfold commitGather
  cases h2 : (get_commit_info tool env repoUrl gitHash).2 with
  | error e => simp only [h2, hcu]; rfl
  | ok v =>
    cases h3 : commitMsgAuthor v with
    | error e => simp only [h2, h3, hcu]; rfl
    | ok p2 => simp only [h2, h3, hcu]; rfl

/-- The changelog gathering invokes the commit fetch exactly when the tag is
untruthy: a truthy tag always yields a non-empty changelog list, so the
`if not changelog` fallback can never fire after a successful release
fetch. -/
theorem gather_commitFetch (tool : Bool) (env : Env) (orgRepo repoUrl gitHash : Str)
    (tag : Option Str) (hx : extract_org_repo repoUrl = Except.ok orgRepo) :
    hasCommitFetch (gatherChangelog tool env orgRepo repoUrl gitHash tag).1 = !optTruthy tag := by
  by_cases ht : optTruthy tag = true
  · rw [ht, Bool.not_true]
    simp only [gatherChangelog, ht, if_true]
    cases hr : (get_release_info_by_tag env orgRepo (tag.getD [])).2 with
    | error e => rfl
    | ok rec =>
      cases hb : releaseBodyAuthor rec with
      | error e => simp only [hb]; rfl
      | ok p =>
        have hne := releaseBodyAuthor_fst_ne_nil rec p hb
        have hempty : p.1.isEmpty = false := by
          cases hp1 : p.1 with
          | nil => exact absurd hp1 hne
          | cons a as => rfl
        simp only [hb, hempty, Bool.false_eq_true, if_false]
        rfl
  · have ht' : optTruthy tag = false := by
      cases hhh : optTruthy tag with
      | false => rfl
      | true => exact absurd hhh ht
    rw [ht', Bool.not_false]
    simp only [gatherChangelog, ht', Bool.false_eq_true, if_false]
    exact commitGather_hasFetch tool env repoUrl gitHash orgRepo hx

/-- C1 (amended): in a run where the repository URL is accepted and the
remote listing is obtained, the Commit Metadata Fetcher is invoked exactly
when the resolved tag is absent or empty.  A successful release fetch
always yields a non-empty changelog list — splitting any body, even the
empty string, on newlines gives at least one line — so an empty-string
release body does not trigger the fallback.  When the fallback runs, the
commit message is the sole changelog line of every delivered message. -/
theorem C1_amended_thm (tool : Bool) (env : Env)
    (repoUrl gitHash projectName releasedBy orgRepo out : Str) (slackUrls : List Str)
    (hx : extract_org_repo repoUrl = Except.ok orgRepo)
    (hl : env.lsRemote repoUrl = Except.ok out) :
    (hasCommitFetch
        (notify_release tool env repoUrl gitHash projectName releasedBy slackUrls).1 =
      !optTruthy (get_tag_for_commit out gitHash)) ∧
    (∀ rec body login, releaseBodyAuthor rec = Except.ok (body, login) → body ≠ []) ∧
    (optTruthy (get_tag_for_commit out gitHash) = false →
      ∀ cu rec msg nm, commitUrlOf tool repoUrl gitHash = some cu →
        env.httpGet cu = Except.ok rec → commitMsgAuthor rec = Except.ok (msg, nm) →
        ∀ u b, Event.post u b ∈
            (notify_release tool env repoUrl gitHash projectName releasedBy slackUrls).1 →
          b = jsonTextPayload (build_message projectName releasedBy gitHash nm [msg])) := by
  refine ⟨?_, fun rec body login hb => releaseBodyAuthor_fst_ne_nil rec (body, login) hb, ?_⟩
  · simp only [notify_release, hx, hl]
    cases hg : (gatherChangelog tool env orgRepo repoUrl gitHash
        (get_tag_for_commit out gitHash)).2 with
    | error e =>
      simp only [hg]
      have := gather_commitFetch tool env orgRepo repoUrl gitHash
        (get_tag_for_commit out gitHash) hx
      simp only [hasCommitFetch, List.any_append, List.any_cons, List.any_nil] at this ⊢
      simp only [this]
      simp [isCommitFetch]
    | ok p =>
      simp only [hg]
      have h1 := gather_commitFetch tool env orgRepo repoUrl gitHash
        (get_tag_for_commit out gitHash) hx
      have h2 := sendLoop_no_commit env
        (build_message projectName releasedBy gitHash p.2 p.1) slackUrls
      simp only [hasCommitFetch, List.any_append, List.any_cons, List.any_nil] at h1 h2 ⊢
      simp only [h1, h2]
      simp [isCommitFetch]
  · intro ht cu rec msg nm hcu hget hcm u b hmem
    have hgci := get_commit_info_of_url tool env repoUrl gitHash cu hcu
    rw [hget] at hgci
    have hcg : commitGather tool env repoUrl gitHash = ([Event.getCommit cu], Except.ok ([msg], nm)) := by
      unfold commitGather
      rw [hgci]
      simp only [hcm]
    have hgath : gatherChangelog tool env orgRepo repoUrl gitHash
        (get_tag_for_commit out gitHash) = ([Event.getCommit cu], Except.ok ([msg], nm)) := by
      simp only [gatherChangelog, ht, Bool.false_eq_true, if_false]
      exact hcg
    simp only [notify_release, hx, hl, hgath] at hmem
    rcases List.mem_append.mp hmem with h1 | h1
    · rcases List.mem_append.mp h1 with h2 | h2
      · simp at h2
      · simp at h2
    · exact sendLoop_post_body env _ slackUrls u b h1

/-- C1 counterexample: the tag of commit `aaa` resolves to `v1` and the
fetched release record has body equal to the empty string, yet the run
completes without ever invoking the Commit Metadata Fetcher — the claim
demands the fetcher be invoked for an empty-string body. -/
theorem C1_counterexample :
    releaseBodyAuthor recEmptyBody = Except.ok ([([] : Str)], "oc".data) ∧
    envEmptyBody.httpGet (releaseApiUrl ("o/r".data) ("v1".data)) = Except.ok recEmptyBody ∧
    get_tag_for_commit ("aaa refs/tags/v1".data) ("aaa".data) = some ("v1".data) ∧
    (notify_release true envEmptyBody ("git@h:o/r.git".data) ("aaa".data) [] []
      ["u".data]).2 = Except.ok () ∧
    hasCommitFetch (notify_release true envEmptyBody ("git@h:o/r.git".data) ("aaa".data) [] []
      ["u".data]).1 = false :=
  ⟨rfl, rfl, rfl, rfl, rfl⟩

/-- C1 witness: the amended theorem applied to a concrete run where the tag
resolves; the Commit Metadata Fetcher is not invoked. -/
theorem C1_witness :
    hasCommitFetch (notify_release true envEmptyBody ("git@h:o/r.git".data) ("aaa".data)
        ("P".data) ("U".data) ["u".data]).1 =
      !optTruthy (get_tag_for_commit ("aaa refs/tags/v1".data) ("aaa".data)) := by
  have h := C1_amended_thm true envEmptyBody ("git@h:o/r.git".data) ("aaa".data)
    ("P".data) ("U".data) ("o/r".data) ("aaa refs/tags/v1".data) ["u".data] rfl rfl
  exact h.1

/-- C2 counterexample: the SSH shorthand with user `alice` is rejected with
a ValueError, although the claim says the SSH form works for any user and
maps `alice@host:org/repo.git` to `org/repo`. -/
theorem C2_counterexample :
    extract_org_repo ("alice@host:org/repo.git".data) =
      Except.error ("Invalid git repository URL format".data) := rfl

/-- C2 (amended): for a well-behaved HTTP(S) URL the Repository Locator
returns the URL path with all leading slashes stripped and every `.git`
occurrence (not only a trailing suffix) removed; for an SSH shorthand it
requires the literal user `git` and takes the part after the last colon,
again with every `.git` occurrence removed; it raises a ValueError exactly
when neither pattern matches.  In particular `https://host/org/repo.git`
maps to `org/repo` and `git@host:org/repo.git` maps to `org/repo`, while
`host.com/org` and `alice@host:org/repo.git` are rejected. -/
theorem C2_amended_thm :
    (∀ host rest : Str,
      (∀ c ∈ host, 32 < c.toNat ∧ c ≠ '/' ∧ c ≠ '?' ∧ c ≠ '#' ∧ c ≠ '[' ∧ c ≠ ']') →
      (∀ c ∈ rest, 32 < c.toNat ∧ c ≠ '?' ∧ c ≠ '#' ∧ c ≠ ';') →
      extract_org_repo ("https://".data ++ (host ++ '/' :: rest)) =
        Except.ok (pyReplace dotGit [] (rest.dropWhile (fun c => c == '/')))) ∧
    (∀ u v : Str, ':' ∉ u → ':' ∉ v →
      (∀ c ∈ u, 32 < c.toNat) → (∀ c ∈ v, 32 < c.toNat) →
      extract_org_repo ("git@".data ++ (u ++ ':' :: v)) =
        Except.ok (pyReplace dotGit [] v)) ∧
    extract_org_repo ("https://host/org/repo.git".data) = Except.ok ("org/repo".data) ∧
    extract_org_repo ("git@host:org/repo.git".data) = Except.ok ("org/repo".data) ∧
    extract_org_repo ("host.com/org".data) =
      Except.error ("Invalid git repository URL format".data) ∧
    extract_org_repo ("alice@host:org/repo.git".data) =
      Except.error ("Invalid git repository URL format".data) :=
  ⟨extract_https, extract_ssh, rfl, rfl, rfl, rfl⟩

/-- C2 witness: the amended characterisation evaluated on the concrete host
`host` and paths `org/repo.git`. -/
theorem C2_witness :
    extract_org_repo ("https://".data ++ ("host".data ++ '/' :: "org/repo.git".data)) =
      Except.ok (pyReplace dotGit [] (("org/repo.git".data : Str).dropWhile (fun c => c == '/'))) ∧
    extract_org_repo ("git@".data ++ ("host".data ++ ':' :: "org/repo.git".data)) =
      Except.ok (pyReplace dotGit [] ("org/repo.git".data)) := by
  have h := C2_amended_thm
  exact ⟨h.1 ("host".data) ("org/repo.git".data) (by decide) (by decide),
    h.2.1 ("host".data) ("org/repo.git".data) (by decide) (by decide) (by decide) (by decide)⟩

/-- C3 (amended): scanning the listing lines in order, the Tag Resolver
returns, for the first line containing both the commit hash and the
`refs/tags/` marker, the segment of that line between the first marker
occurrence and the next one (or the end of line), with every `^` + braces
occurrence (not only a trailing suffix) removed; it returns `none` when no
line contains both.  `get_tag_for_commit` is this scan over the
newline-split of the `git ls-remote` output. -/
theorem C3_amended_thm (commitHash : Str) (lines : List Str) :
    (∀ line, lines.find? (fun l => hasOcc commitHash l && hasOcc refsTags l) = some line →
      tagLoop commitHash lines =
        some (pyReplace caretBraces [] (upTo refsTags (afterFirst refsTags line)))) ∧
    (lines.find? (fun l => hasOcc commitHash l && hasOcc refsTags l) = none →
      tagLoop commitHash lines = none) ∧
    (∀ out, get_tag_for_commit out commitHash = tagLoop commitHash (pySplit ['\n'] out)) := by
  refine ⟨?_, ?_, fun out => rfl⟩
  · induction lines with
    | nil => intro line h; simp at h
    | cons l rest ih =>
      intro line h
      by_cases hp : (hasOcc commitHash l && hasOcc refsTags l) = true
      · rw [show List.find? (fun l => hasOcc commitHash l && hasOcc refsTags l) (l :: rest) =
            some l from List.find?_cons_of_pos rest hp] at h
        simp only [Option.some.injEq] at h
        subst h
        have hocc : hasOcc refsTags l = true := by
          have h2 := hp
          rw [Bool.and_eq_true] at h2
          exact h2.2
        have hget := pySplit_get1 refsTags (by decide) l hocc
        simp only [tagLoop, hp, if_true, hget]
      · rw [show List.find? (fun l => hasOcc commitHash l && hasOcc refsTags l) (l :: rest) =
            List.find? (fun l => hasOcc commitHash l && hasOcc refsTags l) rest from
            List.find?_cons_of_neg rest hp] at h
        have hp' : (hasOcc commitHash l && hasOcc refsTags l) = false := by
          cases hh : (hasOcc commitHash l && hasOcc refsTags l) with
          | false => rfl
          | true => exact absurd hh hp
        simp only [tagLoop, hp', Bool.false_eq_true, if_false]
        exact ih line h
  · induction lines with
    | nil => intro _; rfl
    | cons l rest ih =>
      intro h
      by_cases hp : (hasOcc commitHash l && hasOcc refsTags l) = true
      · rw [show List.find? (fun l => hasOcc commitHash l && hasOcc refsTags l) (l :: rest) =
            some l from List.find?_cons_of_pos rest hp] at h
        simp at h
      · rw [show List.find? (fun l => hasOcc commitHash l && hasOcc refsTags l) (l :: rest) =
            List.find? (fun l => hasOcc commitHash l && hasOcc refsTags l) rest from
            List.find?_cons_of_neg rest hp] at h
        have hp' : (hasOcc commitHash l && hasOcc refsTags l) = false := by
          cases hh : (hasOcc commitHash l && hasOcc refsTags l) with
          | false => rfl
          | true => exact absurd hh hp
        simp only [tagLoop, hp', Bool.false_eq_true, if_false]
        exact ih h

/-- C3 counterexample: on the line `h refs/tags/a^` + braces + `b`, the
resolver returns `ab` — every `^` + braces occurrence is removed — while
the claim (strip only a trailing dereference suffix) demands `a^` +
braces + `b`. -/
theorem C3_counterexample :
    tagLoop ("h".data) [cexTagLine] = some ("ab".data) ∧
    ("ab".data : Str) ≠ 'a' :: (caretBraces ++ ['b']) :=
  ⟨rfl, by decide⟩

/-- C3 witness: the amended theorem evaluated on the two-line listing of the
unit tests. -/
theorem C3_witness :
    tagLoop ("abcdef".data)
        ["abcdef refs/tags/v1.0.0".data, "123456 refs/tags/v1.1.0".data] =
      some (pyReplace caretBraces []
        (upTo refsTags (afterFirst refsTags ("abcdef refs/tags/v1.0.0".data)))) := by
  have h := C3_amended_thm ("abcdef".data)
    ["abcdef refs/tags/v1.0.0".data, "123456 refs/tags/v1.1.0".data]
  exact h.1 ("abcdef refs/tags/v1.0.0".data) (by decide)

/-- C4: the Notification Dispatcher performs exactly one POST per URL, in
list order, each with the identical JSON body built from the message; on the
first failing URL the error propagates and no later URL is attempted (the
failing attempt itself is the last event). -/
theorem C4_thm (env : Env) (message : Str) (urls : List Str) :
    ((∀ u ∈ urls, env.post u = Except.ok ()) →
      sendLoop env message urls =
        (urls.map (fun u => Event.post u (jsonTextPayload message)), Except.ok ())) ∧
    (∀ pre u rest m, urls = pre ++ u :: rest → (∀ v ∈ pre, env.post v = Except.ok ()) →
      env.post u = Except.error m →
      sendLoop env message urls =
        ((pre ++ [u]).map (fun v => Event.post v (jsonTextPayload message)),
          Except.error (PyErr.networkErr m))) :=
  ⟨sendLoop_all_ok env message urls,
   fun pre u rest m hurls hpre hu =>
     hurls ▸ sendLoop_first_fail env message pre u rest m hpre hu⟩

/-- C4 witness: with URLs `a`, `bad`, `c` and only `bad` failing, exactly
the POSTs to `a` and `bad` are attempted and the error propagates. -/
theorem C4_witness :
    sendLoop envBadPost ("m".data) ["a".data, "bad".data, "c".data] =
      ((["a".data, "bad".data] : List Str).map
        (fun v => Event.post v (jsonTextPayload ("m".data))),
        Except.error (PyErr.networkErr ("down".data))) := by
  have h := C4_thm envBadPost ("m".data) ["a".data, "bad".data, "c".data]
  exact h.2 ["a".data] ("bad".data) ["c".data] ("down".data) rfl
    (by intro v hv; fin_cases hv; rfl) rfl

/-- C5: the Message Formatter is a pure function — equal inputs give
byte-identical output; on the spec's fixed example inputs it produces
exactly the fixed header followed by the code block with `change1` and
`change2`; and in general the body is the changelog filtered of every line
containing `What's Changed`, one line per entry, in order. -/
theorem C5_thm :
    (∀ (p1 r1 h1 a1 : Str) (c1 : List Str) (p2 r2 h2 a2 : Str) (c2 : List Str),
      p1 = p2 → r1 = r2 → h1 = h2 → a1 = a2 → c1 = c2 →
      build_message p1 r1 h1 a1 c1 = build_message p2 r2 h2 a2 c2) ∧
    build_message ("ProjectX".data) ("username".data) ("abcdef".data) ("authorName".data)
      ["change1".data, "change2".data] = expectedC5 ∧
    (∀ (p r h a : Str) (cl : List Str),
      build_message p r h a cl =
        msgHeader p r h a ++
          ((cl.filter (fun ch => !hasOcc wcStr ch)).map (fun ch => ch ++ ['\n'])).flatten ++
          "```".data) := by
  refine ⟨?_, ?_, ?_⟩
  · intro p1 r1 h1 a1 c1 p2 r2 h2 a2 c2 e1 e2 e3 e4 e5
    subst e1; subst e2; subst e3; subst e4; subst e5
    rfl
  · rfl
  · intro p r h a cl
    unfold build_message
    rw [msgBody_eq_filter]

/-- C5 witness: determinism applied at the fixed example inputs. -/
theorem C5_witness :
    build_message ("ProjectX".data) ("username".data) ("abcdef".data) ("authorName".data)
        ["change1".data, "change2".data] =
      build_message ("ProjectX".data) ("username".data) ("abcdef".data) ("authorName".data)
        ["change1".data, "change2".data] := by
  have h := C5_thm
  exact h.1 ("ProjectX".data) ("username".data) ("abcdef".data) ("authorName".data)
    ["change1".data, "change2".data] _ _ _ _ _ rfl rfl rfl rfl rfl

/-- C6 (amended): the entry point exits 0 exactly on full success and 1 on
any pipeline failure, with a one-line categorized message (`Network Error:`
for transport errors, `Value Error:` for format errors, `Unexpected
Error:` otherwise); in `slackbot.py` this line goes to standard output
(`print`), not the error stream, while `tool/slackbot.py` logs it to the
error stream; a missing or empty required input is reported via the
argparse usage error with exit status 2 and no external call is made. -/
theorem C6_amended_thm (tool : Bool) (env : Env) (a : CliArgs) :
    (argsComplete a = false → entryMain tool env a = ⟨2, [], [usageErrorLine], []⟩) ∧
    (∀ m : Str, errMessage (PyErr.networkErr m) = "Network Error: ".data ++ m) ∧
    (∀ m : Str, errMessage (PyErr.valueErr m) = "Value Error: ".data ++ m) ∧
    (∀ m : Str, errMessage (PyErr.runtimeErr m) = "Unexpected Error: ".data ++ m) ∧
    (∀ e : PyErr, argsComplete a = true →
      (notify_release tool env (a.gitRepoUrl.getD []) (a.gitHash.getD [])
        (a.projectName.getD []) (a.releasedBy.getD [])
        (slackUrlsOfRaw (a.slackUrlRelease.getD []))).2 = Except.error e →
      (entryMain tool env a).exitCode = 1 ∧
      (tool = true → (entryMain tool env a).stderrLines = [errMessage e] ∧
        (entryMain tool env a).stdoutLines = []) ∧
      (tool = false → (entryMain tool env a).stdoutLines = [errMessage e] ∧
        (entryMain tool env a).stderrLines = [])) ∧
    (argsComplete a = true →
      (notify_release tool env (a.gitRepoUrl.getD []) (a.gitHash.getD [])
        (a.projectName.getD []) (a.releasedBy.getD [])
        (slackUrlsOfRaw (a.slackUrlRelease.getD []))).2 = Except.ok () →
      truthyOpt a.dumpReleaseInfo = false →
      entryMain tool env a = ⟨0, [], [],
        (notify_release tool env (a.gitRepoUrl.getD []) (a.gitHash.getD [])
          (a.projectName.getD []) (a.releasedBy.getD [])
          (slackUrlsOfRaw (a.slackUrlRelease.getD []))).1⟩) := by
  refine ⟨?_, fun m => rfl, fun m => rfl, fun m => rfl, ?_, ?_⟩
  · intro h
    simp [entryMain, h]
  · intro e hc hn
    cases tool with
    | true =>
      have hE : entryMain true env a = ⟨1, [], [errMessage e],
          (notify_release true env (a.gitRepoUrl.getD []) (a.gitHash.getD [])
            (a.projectName.getD []) (a.releasedBy.getD [])
            (slackUrlsOfRaw (a.slackUrlRelease.getD []))).1⟩ := by
        simp only [entryMain, hc, if_true, hn]
      refine ⟨?_, fun _ => ?_, fun hh => absurd hh (by decide)⟩
      · rw [hE]
      · rw [hE]
        exact ⟨rfl, rfl⟩
    | false =>
      have hE : entryMain false env a = ⟨1, [errMessage e], [],
          (notify_release false env (a.gitRepoUrl.getD []) (a.gitHash.getD [])
            (a.projectName.getD []) (a.releasedBy.getD [])
            (slackUrlsOfRaw (a.slackUrlRelease.getD []))).1⟩ := by
        simp only [entryMain, hc, if_true, hn, Bool.false_eq_true, if_false]
      refine ⟨?_, fun hh => absurd hh (by decide), fun _ => ?_⟩
      · rw [hE]
      · rw [hE]
        exact ⟨rfl, rfl⟩
  · intro hc hn hd
    simp only [entryMain, hc, if_true, hn, hd, Bool.false_eq_true, if_false]

/-- C6 counterexample: in the `slackbot.py` variant a network failure is
reported on STANDARD OUTPUT, with nothing on the error stream — the claim
says the categorized one-line message goes to the error stream. -/
theorem C6_counterexample :
    (entryMain false envGetFails argsSsh).exitCode = 1 ∧
    (entryMain false envGetFails argsSsh).stdoutLines = ["Network Error: boom".data] ∧
    (entryMain false envGetFails argsSsh).stderrLines = [] :=
  ⟨rfl, rfl, rfl⟩

/-- C6 witness: the amended theorem applied to the failing concrete run of
the script variant. -/
theorem C6_witness :
    (entryMain false envGetFails argsSsh).exitCode = 1 ∧
    (entryMain false envGetFails argsSsh).stdoutLines =
      [errMessage (PyErr.networkErr ("boom".data))] ∧
    (entryMain false envGetFails argsSsh).stderrLines = [] := by
  have h := C6_amended_thm false envGetFails argsSsh
  have h5 := h.2.2.2.2.1 (PyErr.networkErr ("boom".data)) rfl rfl
  exact ⟨h5.1, (h5.2.2 rfl).1, (h5.2.2 rfl).2⟩

/-- C7 (amended): in a dump run where the org/repo derivation and the
remote listing succeed, (a) if the tag resolves to a non-empty name and
the fetched release record is non-falsy, the file content is exactly that
record serialized with `indent=4` in stored field order; (b) if no truthy
tag resolves, the written record has exactly the top-level fields
`commit`, `message`, `author` in that order; (c) if the tag resolves but
the fetched record is falsy (e.g. the empty object), the fallback record
is written instead of the fetched one; and (d) opening the destination for
writing replaces any previous content unconditionally. -/
theorem C7_amended_thm (tool : Bool) (env : Env)
    (repoUrl gitHash outPath orgRepo out : Str)
    (hx : dumpOrgOf tool repoUrl = Except.ok orgRepo)
    (hl : env.lsRemote repoUrl = Except.ok out) :
    (∀ t rec, get_tag_for_commit out gitHash = some t → t.isEmpty = false →
      env.httpGet (releaseApiUrl orgRepo t) = Except.ok rec → jFalsy rec = false →
      dump_release_info tool env repoUrl gitHash outPath =
        ([Event.shell (lsRemoteCmd repoUrl), Event.getRelease (releaseApiUrl orgRepo t),
          Event.writeFile outPath (serVal 0 rec)], Except.ok (serVal 0 rec))) ∧
    (optTruthy (get_tag_for_commit out gitHash) = false →
      ∀ cu rec msg nm, commitUrlOf tool repoUrl gitHash = some cu →
        env.httpGet cu = Except.ok rec → commitMsgAuthor rec = Except.ok (msg, nm) →
        dump_release_info tool env repoUrl gitHash outPath =
          ([Event.shell (lsRemoteCmd repoUrl), Event.getCommit cu,
            Event.writeFile outPath (serVal 0 (fallbackRec rec msg nm))],
            Except.ok (serVal 0 (fallbackRec rec msg nm)))) ∧
    (∀ t rec, get_tag_for_commit out gitHash = some t → t.isEmpty = false →
      env.httpGet (releaseApiUrl orgRepo t) = Except.ok rec → jFalsy rec = true →
      ∀ cu crec msg nm, commitUrlOf tool repoUrl gitHash = some cu →
        env.httpGet cu = Except.ok crec → commitMsgAuthor crec = Except.ok (msg, nm) →
        dump_release_info tool env repoUrl gitHash outPath =
          ([Event.shell (lsRemoteCmd repoUrl), Event.getRelease (releaseApiUrl orgRepo t),
            Event.getCommit cu,
            Event.writeFile outPath (serVal 0 (fallbackRec crec msg nm))],
            Except.ok (serVal 0 (fallbackRec crec msg nm)))) ∧
    (∀ (prior : Option Str) (content : Str), writeOut prior content = some content) := by
  refine ⟨?_, ?_, ?_, fun _ _ => rfl⟩
  · intro t rec htag htne hget hfalsy
    have hot2 : optTruthy (some t) = true := by
      simp [optTruthy, htne]
    simp only [dump_release_info, hx, hl, htag, hot2, if_true, Option.getD_some,
      get_release_info_by_tag, hget, hfalsy, Bool.false_eq_true, if_false]
    rfl
  · intro ht cu rec msg nm hcu hget hcm
    have hgci := get_commit_info_of_url tool env repoUrl gitHash cu hcu
    rw [hget] at hgci
    simp only [dump_release_info, hx, hl, ht, Bool.false_eq_true, if_false, hgci, hcm]
    rfl
  · intro t rec htag htne hget hfalsy cu crec msg nm hcu hcget hcm
    have hot2 : optTruthy (some t) = true := by
      simp [optTruthy, htne]
    have hgci := get_commit_info_of_url tool env repoUrl gitHash cu hcu
    rw [hcget] at hgci
    simp only [dump_release_info, hx, hl, htag, hot2, if_true, Option.getD_some,
      get_release_info_by_tag, hget, hfalsy, hgci, hcm]
    rfl

/-- C7 counterexample: the tag resolves and the fetched release record is
the empty object, but the persisted content is the commit-based fallback
record, not the serialization of the fetched record — the claim says the
file matches the fetched record whenever the tag resolves. -/
theorem C7_counterexample :
    envEmptyRelease.httpGet (releaseApiUrl ("o/r".data) ("v1".data)) =
      Except.ok (JVal.jobj JFields.fnil) ∧
    get_tag_for_commit ("aaa refs/tags/v1".data) ("aaa".data) = some ("v1".data) ∧
    (dump_release_info true envEmptyRelease ("git@h:o/r.git".data) ("aaa".data)
      ("p".data)).2 = Except.ok (serVal 0 (fallbackRec comRecN ("m1".data) ("N".data))) ∧
    serVal 0 (fallbackRec comRecN ("m1".data) ("N".data)) ≠ serVal 0 (JVal.jobj JFields.fnil) :=
  ⟨rfl, rfl, rfl, by decide⟩

/-- C7 witness: the amended theorem applied to the concrete run in which
the fetched release record is falsy. -/
theorem C7_witness :
    dump_release_info true envEmptyRelease ("git@h:o/r.git".data) ("aaa".data) ("p".data) =
      ([Event.shell (lsRemoteCmd ("git@h:o/r.git".data)),
        Event.getRelease (releaseApiUrl ("o/r".data) ("v1".data)),
        Event.getCommit (commitApiUrl ("o/r".data) ("aaa".data)),
        Event.writeFile ("p".data) (serVal 0 (fallbackRec comRecN ("m1".data) ("N".data)))],
        Except.ok (serVal 0 (fallbackRec comRecN ("m1".data) ("N".data)))) := by
  have h := C7_amended_thm true envEmptyRelease ("git@h:o/r.git".data) ("aaa".data)
    ("p".data) ("o/r".data) ("aaa refs/tags/v1".data) rfl rfl
  exact h.2.2.1 ("v1".data) (JVal.jobj JFields.fnil) rfl rfl rfl rfl
    (commitApiUrl ("o/r".data) ("aaa".data)) comRecN ("m1".data) ("N".data) rfl rfl rfl

/-- C8: on the module's own example URL `https://github.com/example/repo.git`
the Repository Locator yields `example/repo`, but the script variant's
commit fetch and dump path derive the org/repo pair by splitting the URL at
its first colon, yielding `//github.com/example/repo` — a different value
obtained by a different method — so its commit API URL disagrees with the
one built from the Locator's value.  The claim (the invariant of the spec)
is right and the script code is the slip: the tool variant of the same
function uses the Locator. -/
theorem C8_bug_thm :
    extract_org_repo exampleHttpsUrl = Except.ok ("example/repo".data) ∧
    rootColonOrg exampleHttpsUrl = some ("//github.com/example/repo".data) ∧
    dumpOrgOf false exampleHttpsUrl = Except.ok ("//github.com/example/repo".data) ∧
    commitUrlOf false exampleHttpsUrl ("abc".data) =
      some ("https://api.github.com/repos///github.com/example/repo/commits/abc".data) ∧
    commitUrlOf true exampleHttpsUrl ("abc".data) =
      some ("https://api.github.com/repos/example/repo/commits/abc".data) ∧
    commitUrlOf false exampleHttpsUrl ("abc".data) ≠
      commitUrlOf true exampleHttpsUrl ("abc".data) :=
  ⟨rfl, rfl, rfl, rfl, rfl, by decide⟩

/-- C9 counterexample: on the HTTPS URL `https://github.com/acme/widget.git`
(accepted by the Repository Locator) the two variants of `get_commit_info`
target different hosting-platform API URLs. -/
theorem C9_counterexample :
    extract_org_repo acmeHttpsUrl = Except.ok ("acme/widget".data) ∧
    commitUrlOf false acmeHttpsUrl ("abcdef".data) =
      some ("https://api.github.com/repos///github.com/acme/widget/commits/abcdef".data) ∧
    commitUrlOf true acmeHttpsUrl ("abcdef".data) =
      some ("https://api.github.com/repos/acme/widget/commits/abcdef".data) ∧
    commitUrlOf false acmeHttpsUrl ("abcdef".data) ≠
      commitUrlOf true acmeHttpsUrl ("abcdef".data) :=
  ⟨rfl, rfl, rfl, by decide⟩

/-- C9 (amended): the two variants of the Commit Metadata Fetcher target
the same API URL for SSH shorthand URLs `git@<u>:<v>` with a single colon —
both use `<v>` with every `.git` occurrence removed — but for HTTPS URLs
the script variant embeds `//host/...` (the part after the scheme colon)
where the tool variant uses the parsed path, so the targets differ there
(witnessed concretely by `C9_counterexample`). -/
theorem C9_amended_thm (u v gitHash : Str) (hu : ':' ∉ u) (hv : ':' ∉ v)
    (hu2 : ∀ c ∈ u, 32 < c.toNat) (hv2 : ∀ c ∈ v, 32 < c.toNat) :
    commitUrlOf false ("git@".data ++ (u ++ ':' :: v)) gitHash =
      some (commitApiUrl (pyReplace dotGit [] v) gitHash) ∧
    commitUrlOf true ("git@".data ++ (u ++ ':' :: v)) gitHash =
      some (commitApiUrl (pyReplace dotGit [] v) gitHash) := by
  constructor
  · show (rootColonOrg ("git@".data ++ (u ++ ':' :: v))).map
        (fun o => commitApiUrl o gitHash) = _
    rw [rootColonOrg_ssh u v hu hv]
    rfl
  · show (extract_org_repo ("git@".data ++ (u ++ ':' :: v))).toOption.map
        (fun o => commitApiUrl o gitHash) = _
    rw [extract_ssh u v hu hv hu2 hv2]
    rfl

/-- C9 witness: both variants on the concrete SSH URL `git@host:o/r.git`. -/
theorem C9_witness :
    commitUrlOf false ("git@".data ++ ("host".data ++ ':' :: "o/r.git".data)) ("abc".data) =
      some (commitApiUrl (pyReplace dotGit [] ("o/r.git".data)) ("abc".data)) ∧
    commitUrlOf true ("git@".data ++ ("host".data ++ ':' :: "o/r.git".data)) ("abc".data) =
      some (commitApiUrl (pyReplace dotGit [] ("o/r.git".data)) ("abc".data)) :=
  C9_amended_thm ("host".data) ("o/r.git".data) ("abc".data)
    (by decide) (by decide) (by decide) (by decide)

/-- C10: the webhook list handed to the dispatcher is exactly the comma
split of the raw `--slack-url-release` string — joining the parts with
commas recovers the raw string and no part contains a comma, so nothing is
trimmed, deduplicated or dropped; a trailing comma produces a final
empty-string URL, and when earlier deliveries succeed a POST to that empty
URL is attempted. -/
theorem C10_thm (raw : Str) (env : Env) (message : Str) :
    slackUrlsOfRaw raw = splitCh ',' raw ∧
    joinSep ',' (slackUrlsOfRaw raw) = raw ∧
    (∀ p ∈ slackUrlsOfRaw raw, ',' ∉ p) ∧
    (∀ raw0, raw = raw0 ++ [','] → (slackUrlsOfRaw raw).getLast? = some []) ∧
    ((∀ w, env.post w = Except.ok ()) → ∀ raw0, raw = raw0 ++ [','] →
      Event.post [] (jsonTextPayload message) ∈
        (sendLoop env message (slackUrlsOfRaw raw)).1) := by
  have hs : slackUrlsOfRaw raw = splitCh ',' raw := pySplit_singleton ',' raw
  refine ⟨hs, ?_, ?_, ?_, ?_⟩
  · rw [hs]
    exact joinSep_splitCh ',' raw
  · rw [hs]
    exact splitCh_no_sep ',' raw
  · intro raw0 hr
    subst hr
    rw [hs, splitCh_append_sep]
    simp
  · intro hall raw0 hr
    subst hr
    rw [hs, splitCh_append_sep,
      sendLoop_all_ok env message _ (fun w _ => hall w)]
    exact List.mem_map_of_mem _ (List.mem_append.mpr (Or.inr (List.mem_singleton.mpr rfl)))

/-- C10 witness: for the raw string `a,` the last webhook target is the
empty string and, with all deliveries succeeding, a POST to it is
attempted. -/
theorem C10_witness :
    (slackUrlsOfRaw ("a,".data)).getLast? = some [] ∧
    Event.post [] (jsonTextPayload ("m".data)) ∈
      (sendLoop envAllOk ("m".data) (slackUrlsOfRaw ("a,".data))).1 := by
  have h := C10_thm ("a,".data) envAllOk ("m".data)
  exact ⟨h.2.2.2.1 ("a".data) rfl, h.2.2.2.2 (fun w => rfl) ("a".data) rfl⟩

end Slackbot
